import Mathlib

/-!
Shallow embedding of the llm-d meeting organizer scripts
(`calendar-meeting-notifier.js` and `google-apps-script-solution.js`).

Modelling conventions:
* Instants are integers counting milliseconds since the epoch, as returned
  by the JavaScript `Date.getTime()`.
* The PropertiesService key-value store is an association list
  `List (String × StoredValue)` with JavaScript-object semantics
  (unique keys in practice; lookup returns the first binding).
* Values stored under notification keys are either the JSON serialization
  of a `RecordData` object or an opaque raw string on which `JSON.parse`
  throws; `StoredValue` separates the two cases, relying on the round trip
  `JSON.parse (JSON.stringify x) = x` of the platform's JSON codec.
  The raw string can be empty, which matters because the script guards
  `getProperty` results with a JavaScript truthiness test before parsing.
* `Date.toISOString` is an injective serialization of an instant; it is
  modelled by `isoString`, an injective encoding of the integer instant.
* Network dispatch (`UrlFetchApp.fetch`) either completes or throws; a
  `Nat → Bool` oracle indexed by call order tells which calls complete.
-/

/-- JavaScript-style substring containment on character lists;
`charsInfixOf p l` is true iff `p` occurs contiguously inside `l`. -/
def charsInfixOf : List Char → List Char → Bool
  | p, [] => p.isEmpty
  | p, c :: rest => p.isPrefixOf (c :: rest) || charsInfixOf p rest

/-- Model of JavaScript `s.includes(p)`. -/
def jsIncludes (s p : String) : Bool := charsInfixOf p.data s.data

/-- Model of JavaScript `s.startsWith(p)`. -/
def jsStartsWith (s p : String) : Bool := p.data.isPrefixOf s.data

/-- The key marker of notification records ("notified_"). -/
def notifiedPfx : String := "notified_"

/-- The designated community configuration key
("[PUBLIC] llm-d Community Meeting"). -/
def communityPfx : String := "[PUBLIC] llm-d Community Meeting"

/-- Substring marker classifying chat-transcript files. -/
def chatMarker : String := "Chat"

/-- Substring marker of the notes role ("Notes by Gemini"). -/
def notesMarker : String := "Notes by Gemini"

/-- Substring marker of the recording role ("Recording"). -/
def recordingMarker : String := "Recording"

/-- Key suffix under which chat groups are registered ("_chat"). -/
def chatSuffix : String := "_chat"

/-- Payload of a notification record: `{meetingTitle, meetingStart,
notifiedAt}`, with the two instants stored via `Date.toISOString` and read
back with `new Date(...)` (modelled as the identity round trip on the
millisecond instant). -/
structure RecordData where
  meetingTitle : String
  meetingStart : Int
  notifiedAt : Int
deriving DecidableEq

/-- A value held in the PropertiesService store: either the JSON
serialization of a `RecordData` or a raw string on which `JSON.parse`
throws (possibly the empty string). -/
inductive StoredValue where
  | json (r : RecordData)
  | corrupt (raw : String)
deriving DecidableEq

/-- The PropertiesService script-property store. -/
abbrev Store : Type := List (String × StoredValue)

/-- Generic association-list lookup (JavaScript object property access:
first binding wins). -/
def lookupAssoc {α : Type} : List (String × α) → String → Option α
  | [], _ => none
  | (k, v) :: rest, key => if k = key then some v else lookupAssoc rest key

/-- `PropertiesService.getScriptProperties().getProperty(key)`. -/
def getProperty (s : Store) (key : String) : Option StoredValue :=
  lookupAssoc s key

/-- `properties.setProperty(key, value)`: idempotent upsert. -/
def setProperty : Store → String → StoredValue → Store
  | [], key, v => [(key, v)]
  | (k, w) :: rest, key, v =>
      if k = key then (key, v) :: rest else (k, w) :: setProperty rest key v

/-- `properties.deleteProperty(key)`: removes the binding, a no-op when
the key is absent. -/
def deleteProperty (s : Store) (key : String) : Store :=
  s.filter (fun e => decide (e.1 ≠ key))

/-- Sequential `deleteProperty` calls over a list of keys. -/
def deleteProps (s : Store) (ks : List String) : Store :=
  ks.foldl deleteProperty s

/-- One configured entry of `CONFIG.MEETING_CONFIGS` (calendar watcher
side; only the fields the notifier reads). -/
structure MeetingConfig where
  slackWebhook : String
  slackChannel : String
deriving DecidableEq

/-- Result shape of `findMatchingMeetingConfig`: `{prefix, ...config}`. -/
structure MatchedMeetingConfig where
  pfx : String
  slackWebhook : String
  slackChannel : String
deriving DecidableEq

/-- `findMatchingMeetingConfig(title)`: first entry of the ordered
configuration table whose key is a `startsWith` match of the title. -/
def findMatchingMeetingConfig :
    List (String × MeetingConfig) → String → Option MatchedMeetingConfig
  | [], _ => none
  | (p, cfg) :: rest, title =>
      if jsStartsWith title p then some ⟨p, cfg.slackWebhook, cfg.slackChannel⟩
      else findMatchingMeetingConfig rest title

/-- Injective model of `Date.toISOString()` applied to an instant. -/
def isoString (t : Int) : String := toString t

/-- A meeting queued for notification by `getUpcomingMeetings` (the
fields `processMeeting` and the dedup store read; the Meet link and
document list only feed message formatting and are omitted). -/
structure Meeting where
  title : String
  eventId : String
  startTime : Int
  config : MatchedMeetingConfig
deriving DecidableEq

/-- A calendar event as returned by the calendar fetch. -/
structure CalEvent where
  title : String
  eventId : String
  startTime : Int
deriving DecidableEq

/-- The per-event timing test of `getUpcomingMeetings`:
`secondsUntilStart = Math.floor((startTime - now) / 1000)` and the event
is "starting now" iff `Math.abs(secondsUntilStart) <= 90`. -/
def meetingStartingNow (startTime now : Int) : Bool :=
  decide (|Int.fdiv (startTime - now) 1000| ≤ 90)

/-- `getUpcomingMeetings` over an already-fetched candidate list: keep
events passing the ±90-second test that match a configured entry. -/
def getUpcomingMeetings (table : List (String × MeetingConfig))
    (events : List CalEvent) (now : Int) : List Meeting :=
  events.filterMap (fun e =>
    if meetingStartingNow e.startTime now then
      match findMatchingMeetingConfig table e.title with
      | some cfg => some ⟨e.title, e.eventId, e.startTime, cfg⟩
      | none => none
    else none)

/-- `getMeetingNotificationKey`: `notified_<eventId>_<startTimeISO>`. -/
def getMeetingNotificationKey (m : Meeting) : String :=
  notifiedPfx ++ m.eventId ++ ("_") ++ isoString m.startTime

/-- Error text standing for the `SyntaxError` thrown by `JSON.parse`. -/
def jsonParseErr : String := "SyntaxError: JSON.parse"

/-- `hasAlreadyNotified(meeting)`: absent key (or an empty stored string,
which fails the JavaScript truthiness guard) yields `false`; a parseable
record yields `true`; any other stored value makes `JSON.parse` throw. -/
def hasAlreadyNotified (s : Store) (m : Meeting) : Except String Bool :=
  match getProperty s (getMeetingNotificationKey m) with
  | none => .ok false
  | some (.json _) => .ok true
  | some (.corrupt raw) => if raw = ("") then .ok false else .error jsonParseErr

/-- `recordNotificationSent(meeting)`: upsert of the notification record
with `notifiedAt` the current instant. -/
def recordNotificationSent (s : Store) (m : Meeting) (now : Int) : Store :=
  setProperty s (getMeetingNotificationKey m)
    (.json ⟨m.title, m.startTime, now⟩)

/-- A resolved notification destination (webhook, channel name). -/
structure Channel where
  webhook : String
  name : String
deriving DecidableEq

/-- `getChannelsToNotify(meetingConfig)`: the community configuration
resolves to its own channel only; any other configuration resolves to its
own channel followed by the community channel (when configured). -/
def getChannelsToNotify (table : List (String × MeetingConfig))
    (mc : MatchedMeetingConfig) : List Channel :=
  if mc.pfx = communityPfx then
    [⟨mc.slackWebhook, mc.slackChannel⟩]
  else
    match lookupAssoc table communityPfx with
    | some cc => [⟨mc.slackWebhook, mc.slackChannel⟩, ⟨cc.slackWebhook, cc.slackChannel⟩]
    | none => [⟨mc.slackWebhook, mc.slackChannel⟩]

/-- The dispatch loop of `processMeeting`: send to each channel in order;
`fetchOk i` tells whether the `i`-th `UrlFetchApp.fetch` call completes
(with any response code) or throws. A throw rethrows out of
`sendSlackNotification` and aborts the loop. Returns the channels
actually dispatched and whether the loop completed. -/
def dispatchLoop (fetchOk : Nat → Bool) : List Channel → Nat → (List Channel × Bool)
  | [], _ => ([], true)
  | c :: rest, i =>
      if fetchOk i then
        let r := dispatchLoop fetchOk rest (i + 1)
        (c :: r.1, r.2)
      else ([], false)

/-- Error text reported when a dispatch throws mid-loop. -/
def dispatchErr : String := "Failed to process meeting"

/-- Outcome of one `processMeeting` call: the store afterwards, the
channels dispatched to, and the error notifications reported. -/
structure ProcResult where
  store : Store
  sent : List Channel
  errors : List String
deriving DecidableEq

/-- `processMeeting(meeting)`: skip when already notified; otherwise
dispatch to every resolved channel and only then write the notification
record. A throw anywhere inside the `try` block (a `JSON.parse` failure
in `hasAlreadyNotified`, or a throwing dispatch) lands in the per-meeting
`catch`, which reports the error and returns without recording. -/
def processMeeting (table : List (String × MeetingConfig)) (m : Meeting)
    (s : Store) (now : Int) (fetchOk : Nat → Bool) : ProcResult :=
  match hasAlreadyNotified s m with
  | .error e => ⟨s, [], [e]⟩
  | .ok true => ⟨s, [], []⟩
  | .ok false =>
      let chs := getChannelsToNotify table m.config
      let r := dispatchLoop fetchOk chs 0
      if r.2 then ⟨recordNotificationSent s m now, r.1, []⟩
      else ⟨s, r.1, [dispatchErr]⟩

/-- `n` consecutive ticks each calling `processMeeting` on the same
occurrence at the same instant, threading the property store and
accumulating every dispatched channel. -/
def processMeetingIter (table : List (String × MeetingConfig)) (m : Meeting)
    (now : Int) (fetchOk : Nat → Bool) : Nat → Store → (Store × List Channel)
  | 0, s => (s, [])
  | n + 1, s =>
      let r := processMeeting table m s now fetchOk
      let rest := processMeetingIter table m now fetchOk n r.store
      (rest.1, r.sent ++ rest.2)

/-- One element of the `notificationRecords` array built by the cleanup
functions: the key, the parsed payload (`none` when `JSON.parse` threw),
and the parsed write time (`new Date(0)` for corrupted records). -/
structure NotifRecord where
  key : String
  data : Option RecordData
  notifiedTime : Int
deriving DecidableEq

/-- How one store entry is turned into a `NotifRecord`. -/
def toNotifRecord (kv : String × StoredValue) : NotifRecord :=
  match kv.2 with
  | .json r => ⟨kv.1, some r, r.notifiedAt⟩
  | .corrupt _ => ⟨kv.1, none, 0⟩

/-- The store entries whose key carries the notification marker. -/
def notifEntries (s : Store) : Store :=
  s.filter (fun e => jsStartsWith e.1 notifiedPfx)

/-- Number of notification records currently stored. -/
def countNotified (s : Store) : Nat := (notifEntries s).length

/-- The `notificationRecords` array of `cleanupOldNotificationRecords`. -/
def collectRecords (s : Store) : List NotifRecord :=
  (notifEntries s).map toNotifRecord

/-- Strategy 1 of the cleanup: keys of records whose value failed to
parse, deleted unconditionally. -/
def corruptedKeys (s : Store) : List String :=
  ((collectRecords s).filter (fun r => r.data.isNone)).map (fun r => r.key)

/-- Strategy 2: the adaptive retention horizon in hours, chosen from the
total record count (`>= 45 → 4`, `>= 30 → 8`, else `24`). -/
def cutoffHoursOf (n : Nat) : Int :=
  if 45 ≤ n then 4 else if 30 ≤ n then 8 else 24

/-- The cutoff instant `now - cutoffHours` of the adaptive cleanup. -/
def cutoffTime (s : Store) (now : Int) : Int :=
  now - cutoffHoursOf (collectRecords s).length * 60 * 60 * 1000

/-- Strategy 3: keys of parseable records written before the cutoff. -/
def horizonKeys (s : Store) (now : Int) : List String :=
  ((collectRecords s).filter
    (fun r => r.data.isSome && decide (r.notifiedTime < cutoffTime s now))).map
    (fun r => r.key)

/-- Store state after strategies 1-3 (corrupted-record pass followed by
the horizon-based pass), before the emergency pass. -/
def cleanupPasses13 (s : Store) (now : Int) : Store :=
  deleteProps (deleteProps s (corruptedKeys s)) (horizonKeys s now)

/-- `cleanedCount` after strategies 1-3. -/
def cleanedCount (s : Store) (now : Int) : Nat :=
  (corruptedKeys s).length + (horizonKeys s now).length

/-- `remainingRecords = notificationRecords.length - cleanedCount`,
computed against the snapshot taken at the start of the cleanup. -/
def remainingAfter (s : Store) (now : Int) : Nat :=
  (collectRecords s).length - cleanedCount s now

/-- Ordering used by the emergency pass (`a.notifiedTime -
b.notifiedTime` comparator: ascending write time; JavaScript sort is
stable, as is insertion sort). -/
def recLE (a b : NotifRecord) : Prop := a.notifiedTime ≤ b.notifiedTime

instance : DecidableRel recLE :=
  fun a b => inferInstanceAs (Decidable (a.notifiedTime ≤ b.notifiedTime))

instance : IsTotal NotifRecord recLE := ⟨fun a b => Int.le_total a.notifiedTime b.notifiedTime⟩

instance : IsTrans NotifRecord recLE := ⟨fun _ _ _ h₁ h₂ => le_trans h₁ h₂⟩

/-- `sortedRecords`: the parseable records of the snapshot, sorted by
write time ascending. -/
def sortedRecords (s : Store) : List NotifRecord :=
  List.insertionSort recLE ((collectRecords s).filter (fun r => r.data.isSome))

/-- Strategy 4: the keys deleted by the emergency pass — the oldest
`remainingRecords - 40` entries of the sorted snapshot. -/
def emergencyKeys (s : Store) (now : Int) : List String :=
  ((sortedRecords s).take (remainingAfter s now - 40)).map (fun r => r.key)

/-- `cleanupOldNotificationRecords()`: corrupted pass, adaptive
horizon-based pass, then the emergency pass when the snapshot count minus
the deletions so far is still at least 48. -/
def cleanupOldNotificationRecords (s : Store) (now : Int) : Store :=
  if 48 ≤ remainingAfter s now then
    deleteProps (cleanupPasses13 s now) (emergencyKeys s now)
  else cleanupPasses13 s now

/-- Keys removed by the daily cleanup: corrupted records and records
older than the fixed 6-hour horizon. -/
def dailyKeys (s : Store) (now : Int) : List String :=
  ((collectRecords s).filter
    (fun r => r.data.isNone || decide (r.notifiedTime < now - 6 * 60 * 60 * 1000))).map
    (fun r => r.key)

/-- `dailyCleanupNotificationRecords()`: fixed 6-hour horizon, corrupted
records removed unconditionally. -/
def dailyCleanupNotificationRecords (s : Store) (now : Int) : Store :=
  deleteProps s (dailyKeys s now)

/-- One configured entry of `CONFIG.MEETING_CONFIGS` (file-mover side;
the grouping logic reads none of the fields, they ride along). -/
structure DriveConfig where
  targetFolderId : String
  slackWebhook : String
  slackChannel : String
deriving DecidableEq

/-- Result shape of the file-mover's `findMatchingConfig`:
`{prefix, config, isChat}`. -/
structure FileMatch where
  pfx : String
  config : DriveConfig
  isChat : Bool
deriving DecidableEq

/-- The file-mover's `findMatchingConfig(title)`: first entry of the
ordered table whose key occurs as a substring of the title; the chat
classification is an independent substring test. -/
def findMatchingConfig :
    List (String × DriveConfig) → String → Option FileMatch
  | [], _ => none
  | (p, cfg) :: rest, title =>
      if jsIncludes title p then some ⟨p, cfg, jsIncludes title chatMarker⟩
      else findMatchingConfig rest title

/-- A listed drive file (the fields the grouping logic reads). -/
structure FileItem where
  id : String
  title : String
deriving DecidableEq

/-- One group value: `{config, files, isChat}`. -/
structure GroupData where
  config : DriveConfig
  files : List FileItem
  isChat : Bool
deriving DecidableEq

/-- Appending a file into the object keyed by matched entry: existing key
keeps its position and grows its file list, a new key is appended. -/
def addToGroups (gs : List (String × GroupData)) (p : String)
    (cfg : DriveConfig) (chat : Bool) (f : FileItem) : List (String × GroupData) :=
  match gs with
  | [] => [(p, ⟨cfg, [f], chat⟩)]
  | (q, gd) :: rest =>
      if q = p then (q, ⟨gd.config, gd.files ++ [f], gd.isChat⟩) :: rest
      else (q, gd) :: addToGroups rest p cfg chat f

/-- The `files.forEach` of `groupFilesByMeetingConfig`, threading the
`grouped` (regular) and `chatFiles` objects. -/
def buildGroupsAux (table : List (String × DriveConfig)) :
    List FileItem → (List (String × GroupData) × List (String × GroupData)) →
    (List (String × GroupData) × List (String × GroupData))
  | [], acc => acc
  | f :: fs, acc =>
      match findMatchingConfig table f.title with
      | none => buildGroupsAux table fs acc
      | some m =>
          if m.isChat then
            buildGroupsAux table fs (acc.1, addToGroups acc.2 m.pfx m.config true f)
          else
            buildGroupsAux table fs (addToGroups acc.1 m.pfx m.config false f, acc.2)

/-- The two grouping objects built from the file listing. -/
def buildGroups (table : List (String × DriveConfig)) (files : List FileItem) :
    List (String × GroupData) × List (String × GroupData) :=
  buildGroupsAux table files ([], [])

/-- The pairing check of a regular group: at least one notes-role file
and at least one recording-role file. -/
def hasCompletePair (gd : GroupData) : Bool :=
  gd.files.any (fun f => jsIncludes f.title notesMarker) &&
  gd.files.any (fun f => jsIncludes f.title recordingMarker)

/-- `groupFilesByMeetingConfig(files)`: regular groups surviving the
pairing check, followed by every chat group under its `_chat` key. -/
def groupFilesByMeetingConfig (table : List (String × DriveConfig))
    (files : List FileItem) : List (String × GroupData) :=
  (buildGroups table files).1.filter (fun g => hasCompletePair g.2) ++
  (buildGroups table files).2.map (fun g => (g.1 ++ chatSuffix, g.2))

/-! ### Store lemmas -/

theorem getProperty_deleteProperty (s : Store) (k0 k : String) :
    getProperty (deleteProperty s k0) k = if k = k0 then none else getProperty s k := by
  induction s with
  | nil => simp [getProperty, deleteProperty, lookupAssoc]
  | cons e rest ih =>
      obtain ⟨k1, v1⟩ := e
      by_cases h1 : k1 = k0
      · subst h1
        by_cases h2 : k = k1
        · subst h2
          simpa [deleteProperty, getProperty, lookupAssoc] using ih
        · simpa [deleteProperty, getProperty, lookupAssoc, h2, Ne.symm h2] using ih
      · by_cases h2 : k1 = k
        · subst h2
          simp [deleteProperty, getProperty, lookupAssoc, h1]
        · simpa [deleteProperty, getProperty, lookupAssoc, h1, h2] using ih

theorem getProperty_deleteProps (s : Store) (ks : List String) (k : String) :
    getProperty (deleteProps s ks) k = if k ∈ ks then none else getProperty s k := by
  induction ks generalizing s with
  | nil => simp [deleteProps]
  | cons k0 rest ih =>
      have hstep : deleteProps s (k0 :: rest) = deleteProps (deleteProperty s k0) rest := rfl
      rw [hstep, ih]
      by_cases h : k ∈ rest
      · simp [h]
      · simp [h, getProperty_deleteProperty]

theorem mem_of_getProperty_eq_some {s : Store} {k : String} {v : StoredValue}
    (h : getProperty s k = some v) : (k, v) ∈ s := by
  induction s with
  | nil => simp [getProperty, lookupAssoc] at h
  | cons e rest ih =>
      obtain ⟨k1, v1⟩ := e
      by_cases h1 : k1 = k
      · subst h1
        simp [getProperty, lookupAssoc] at h
        simp [h]
      · simp [getProperty, lookupAssoc, h1] at h
        exact List.mem_cons_of_mem _ (ih h)

theorem getProperty_eq_some_of_mem {s : Store} {k : String} {v : StoredValue}
    (hnd : (s.map Prod.fst).Nodup) (h : (k, v) ∈ s) : getProperty s k = some v := by
  induction s with
  | nil => simp at h
  | cons e rest ih =>
      obtain ⟨k1, v1⟩ := e
      simp only [List.map_cons, List.nodup_cons] at hnd
      rcases List.mem_cons.mp h with h1 | h1
      · rw [Prod.mk.injEq] at h1
        simp [getProperty, lookupAssoc, h1.1, h1.2]
      · have hk : k1 ≠ k := by
          intro hkk
          subst hkk
          exact hnd.1 (List.mem_map.mpr ⟨(k1, v), h1, rfl⟩)
        simp only [getProperty, lookupAssoc, hk, if_false]
        exact ih hnd.2 h1

theorem getProperty_eq_none_iff {s : Store} {k : String} :
    getProperty s k = none ↔ k ∉ s.map Prod.fst := by
  induction s with
  | nil => simp [getProperty, lookupAssoc]
  | cons e rest ih =>
      obtain ⟨k1, v1⟩ := e
      by_cases h1 : k1 = k
      · subst h1
        simp [getProperty, lookupAssoc]
      · simp only [getProperty, lookupAssoc, h1, if_false, List.map_cons, List.mem_cons]
        rw [getProperty] at ih
        rw [ih]
        constructor
        · rintro hn (h2 | h2)
          · exact h1 h2.symm
          · exact hn h2
        · intro hn h2
          exact hn (Or.inr h2)

theorem setProperty_of_not_mem {s : Store} {k : String} (v : StoredValue)
    (h : k ∉ s.map Prod.fst) : setProperty s k v = s ++ [(k, v)] := by
  induction s with
  | nil => rfl
  | cons e rest ih =>
      obtain ⟨k1, v1⟩ := e
      simp only [List.map_cons, List.mem_cons] at h
      push_neg at h
      simp only [setProperty, Ne.symm h.1, if_false, List.cons_append]
      rw [ih h.2]

theorem getProperty_setProperty_self (s : Store) (k : String) (v : StoredValue) :
    getProperty (setProperty s k v) k = some v := by
  induction s with
  | nil => simp [setProperty, getProperty, lookupAssoc]
  | cons e rest ih =>
      obtain ⟨k1, v1⟩ := e
      by_cases h1 : k1 = k
      · simp [setProperty, getProperty, lookupAssoc, h1]
      · simpa [setProperty, getProperty, lookupAssoc, h1] using ih

/-- Number of bindings of one key in the store. -/
def countKey (s : Store) (k : String) : Nat :=
  (s.filter (fun e => decide (e.1 = k))).length

theorem countKey_eq_zero_of_not_mem {s : Store} {k : String}
    (h : k ∉ s.map Prod.fst) : countKey s k = 0 := by
  induction s with
  | nil => rfl
  | cons e rest ih =>
      obtain ⟨k1, v1⟩ := e
      simp only [List.map_cons, List.mem_cons] at h
      push_neg at h
      simp only [countKey, List.filter]
      rw [decide_eq_false (fun hh => h.1 hh.symm)]
      exact ih h.2

theorem countKey_append_single (s : Store) (k : String) (v : StoredValue) :
    countKey (s ++ [(k, v)]) k = countKey s k + 1 := by
  simp [countKey, List.filter_append]

/-! ### Record-collection lemmas -/

theorem toNotifRecord_key (kv : String × StoredValue) : (toNotifRecord kv).key = kv.1 := by
  obtain ⟨k, v⟩ := kv
  cases v <;> rfl

theorem collect_keys_eq (s : Store) :
    (collectRecords s).map (fun r => r.key) = (notifEntries s).map Prod.fst := by
  rw [collectRecords, List.map_map]
  exact List.map_congr_left (fun kv _ => toNotifRecord_key kv)

theorem collect_length_eq (s : Store) : (collectRecords s).length = countNotified s := by
  simp [collectRecords, countNotified]

theorem mem_collectRecords {s : Store} {r : NotifRecord} :
    r ∈ collectRecords s ↔
      ∃ kv, kv ∈ s ∧ jsStartsWith kv.1 notifiedPfx = true ∧ toNotifRecord kv = r := by
  simp only [collectRecords, notifEntries, List.mem_map, List.mem_filter]
  constructor
  · rintro ⟨kv, ⟨hmem, hsw⟩, hr⟩
    exact ⟨kv, hmem, hsw, hr⟩
  · rintro ⟨kv, hmem, hsw, hr⟩
    exact ⟨kv, ⟨hmem, hsw⟩, hr⟩

theorem collect_key_startsWith {s : Store} {r : NotifRecord}
    (h : r ∈ collectRecords s) : jsStartsWith r.key notifiedPfx = true := by
  rcases mem_collectRecords.mp h with ⟨kv, _, hsw, hr⟩
  rw [← hr, toNotifRecord_key]
  exact hsw

theorem nodup_notifKeys {s : Store} (hnd : (s.map Prod.fst).Nodup) :
    ((notifEntries s).map Prod.fst).Nodup :=
  hnd.sublist ((List.filter_sublist s).map Prod.fst)

theorem nodup_collect_keys {s : Store} (hnd : (s.map Prod.fst).Nodup) :
    ((collectRecords s).map (fun r => r.key)).Nodup := by
  rw [collect_keys_eq]
  exact nodup_notifKeys hnd

theorem collect_key_inj {s : Store} (hnd : (s.map Prod.fst).Nodup)
    {r1 r2 : NotifRecord} (h1 : r1 ∈ collectRecords s) (h2 : r2 ∈ collectRecords s)
    (hk : r1.key = r2.key) : r1 = r2 :=
  List.inj_on_of_nodup_map (nodup_collect_keys hnd) h1 h2 hk

theorem mem_corruptedKeys {s : Store} {k : String} :
    k ∈ corruptedKeys s ↔
      (∃ raw, (k, StoredValue.corrupt raw) ∈ s) ∧ jsStartsWith k notifiedPfx = true := by
  simp only [corruptedKeys, List.mem_map, List.mem_filter]
  constructor
  · rintro ⟨r, ⟨hc, hnone⟩, hk⟩
    rcases mem_collectRecords.mp hc with ⟨⟨k1, v1⟩, hmem, hsw, hr⟩
    cases v1 with
    | json rd =>
        rw [← hr] at hnone
        simp [toNotifRecord] at hnone
    | corrupt raw =>
        have hkk : k1 = k := by
          rw [← hk, ← hr, toNotifRecord_key]
        subst hkk
        exact ⟨⟨raw, hmem⟩, hsw⟩
  · rintro ⟨⟨raw, hmem⟩, hsw⟩
    refine ⟨toNotifRecord (k, .corrupt raw), ⟨mem_collectRecords.mpr ⟨(k, .corrupt raw), hmem, hsw, rfl⟩, ?_⟩, ?_⟩
    · rfl
    · rfl

theorem mem_horizonKeys {s : Store} {now : Int} {k : String} :
    k ∈ horizonKeys s now ↔
      (∃ rd : RecordData, (k, StoredValue.json rd) ∈ s ∧
        rd.notifiedAt < cutoffTime s now) ∧ jsStartsWith k notifiedPfx = true := by
  simp only [horizonKeys, List.mem_map, List.mem_filter, Bool.and_eq_true, decide_eq_true_eq]
  constructor
  · rintro ⟨r, ⟨hc, hsome, hold⟩, hk⟩
    rcases mem_collectRecords.mp hc with ⟨⟨k1, v1⟩, hmem, hsw, hr⟩
    cases v1 with
    | corrupt raw =>
        rw [← hr] at hsome
        simp [toNotifRecord] at hsome
    | json rd =>
        have hkk : k1 = k := by
          rw [← hk, ← hr, toNotifRecord_key]
        subst hkk
        rw [← hr] at hold
        exact ⟨⟨rd, hmem, hold⟩, hsw⟩
  · rintro ⟨⟨rd, hmem, hold⟩, hsw⟩
    exact ⟨toNotifRecord (k, .json rd),
      ⟨mem_collectRecords.mpr ⟨(k, .json rd), hmem, hsw, rfl⟩, rfl, hold⟩, rfl⟩

theorem mem_dailyKeys {s : Store} {now : Int} {k : String} :
    k ∈ dailyKeys s now ↔
      ((∃ raw, (k, StoredValue.corrupt raw) ∈ s) ∨
       (∃ rd : RecordData, (k, StoredValue.json rd) ∈ s ∧
         rd.notifiedAt < now - 6 * 60 * 60 * 1000)) ∧
      jsStartsWith k notifiedPfx = true := by
  simp only [dailyKeys, List.mem_map, List.mem_filter, Bool.or_eq_true, decide_eq_true_eq]
  constructor
  · rintro ⟨r, ⟨hc, hcond⟩, hk⟩
    rcases mem_collectRecords.mp hc with ⟨⟨k1, v1⟩, hmem, hsw, hr⟩
    have hkk : k1 = k := by
      rw [← hk, ← hr, toNotifRecord_key]
    subst hkk
    cases v1 with
    | corrupt raw => exact ⟨Or.inl ⟨raw, hmem⟩, hsw⟩
    | json rd =>
        rcases hcond with hnone | hold
        · rw [← hr] at hnone
          simp [toNotifRecord] at hnone
        · rw [← hr] at hold
          exact ⟨Or.inr ⟨rd, hmem, hold⟩, hsw⟩
  · rintro ⟨hv, hsw⟩
    rcases hv with ⟨raw, hmem⟩ | ⟨rd, hmem, hold⟩
    · exact ⟨toNotifRecord (k, .corrupt raw),
        ⟨mem_collectRecords.mpr ⟨(k, .corrupt raw), hmem, hsw, rfl⟩, Or.inl rfl⟩, rfl⟩
    · exact ⟨toNotifRecord (k, .json rd),
        ⟨mem_collectRecords.mpr ⟨(k, .json rd), hmem, hsw, rfl⟩, Or.inr hold⟩, rfl⟩

theorem corruptedKeys_startsWith {s : Store} {k : String}
    (h : k ∈ corruptedKeys s) : jsStartsWith k notifiedPfx = true :=
  (mem_corruptedKeys.mp h).2

theorem horizonKeys_startsWith {s : Store} {now : Int} {k : String}
    (h : k ∈ horizonKeys s now) : jsStartsWith k notifiedPfx = true :=
  (mem_horizonKeys.mp h).2

theorem mem_sortedRecords {s : Store} {r : NotifRecord} (h : r ∈ sortedRecords s) :
    r ∈ collectRecords s ∧ r.data.isSome = true := by
  rw [sortedRecords, List.mem_insertionSort] at h
  simpa using List.mem_filter.mp h

theorem emergencyKeys_startsWith {s : Store} {now : Int} {k : String}
    (h : k ∈ emergencyKeys s now) : jsStartsWith k notifiedPfx = true := by
  rcases List.mem_map.mp h with ⟨r, hr, hk⟩
  have hr2 := mem_sortedRecords (List.mem_of_mem_take hr)
  rw [← hk]
  exact collect_key_startsWith hr2.1

theorem dailyKeys_startsWith {s : Store} {now : Int} {k : String}
    (h : k ∈ dailyKeys s now) : jsStartsWith k notifiedPfx = true :=
  (mem_dailyKeys.mp h).2

/-! ### Counting lemmas -/

theorem notifEntries_deleteProperty (s : Store) (k : String) :
    notifEntries (deleteProperty s k) =
      (notifEntries s).filter (fun e => decide (e.1 ≠ k)) := by
  rw [notifEntries, deleteProperty, List.filter_filter, notifEntries, List.filter_filter]
  exact List.filter_congr (fun a _ => Bool.and_comm _ _)

theorem length_filter_ne_of_mem {l : Store} {k : String}
    (hnd : (l.map Prod.fst).Nodup) (hk : k ∈ l.map Prod.fst) :
    (l.filter (fun e => decide (e.1 ≠ k))).length = l.length - 1 := by
  induction l with
  | nil => simp at hk
  | cons e rest ih =>
      obtain ⟨k1, v1⟩ := e
      simp only [List.map_cons, List.nodup_cons] at hnd
      simp only [List.map_cons, List.mem_cons] at hk
      by_cases h1 : k1 = k
      · subst h1
        have hrest : rest.filter (fun e => decide (e.1 ≠ k1)) = rest := by
          refine List.filter_eq_self.mpr (fun a ha => decide_eq_true ?_)
          intro hak
          exact hnd.1 (List.mem_map.mpr ⟨a, ha, hak⟩)
        rw [List.filter_cons, decide_eq_false (show ¬ ((k1, v1).1 ≠ k1) from fun h => h rfl)]
        rw [if_neg (by simp), hrest]
        simp
      · have hk2 : k ∈ rest.map Prod.fst := by
          rcases hk with hk | hk
          · exact absurd hk.symm h1
          · exact hk
        have hlen : 1 ≤ rest.length := by
          rcases List.mem_map.mp hk2 with ⟨a, ha, _⟩
          exact List.length_pos.mpr (List.ne_nil_of_mem ha)
        have := ih hnd.2 hk2
        simp only [List.filter_cons]
        rw [decide_eq_true (show (k1, v1).1 ≠ k from h1)]
        simp only [if_true, List.length_cons]
        omega

theorem countNotified_deleteProperty {s : Store} {k : String}
    (hnd : (s.map Prod.fst).Nodup) (hk : k ∈ (notifEntries s).map Prod.fst) :
    countNotified (deleteProperty s k) = countNotified s - 1 := by
  rw [countNotified, notifEntries_deleteProperty]
  exact length_filter_ne_of_mem (nodup_notifKeys hnd) hk

theorem nodup_keys_deleteProperty {s : Store} (k : String)
    (hnd : (s.map Prod.fst).Nodup) : ((deleteProperty s k).map Prod.fst).Nodup :=
  hnd.sublist ((List.filter_sublist s).map Prod.fst)

theorem mem_notifKeys_deleteProperty {s : Store} {k0 k : String}
    (hne : k ≠ k0) (hk : k ∈ (notifEntries s).map Prod.fst) :
    k ∈ (notifEntries (deleteProperty s k0)).map Prod.fst := by
  rw [notifEntries_deleteProperty]
  rcases List.mem_map.mp hk with ⟨e, he, hke⟩
  refine List.mem_map.mpr ⟨e, List.mem_filter.mpr ⟨he, decide_eq_true ?_⟩, hke⟩
  rw [hke]
  exact hne

theorem countNotified_deleteProps {s : Store} {ks : List String}
    (hnd : (s.map Prod.fst).Nodup) (hknd : ks.Nodup)
    (hsub : ∀ k ∈ ks, k ∈ (notifEntries s).map Prod.fst) :
    countNotified (deleteProps s ks) = countNotified s - ks.length := by
  induction ks generalizing s with
  | nil => simp [deleteProps]
  | cons k rest ih =>
      have hstep : deleteProps s (k :: rest) = deleteProps (deleteProperty s k) rest := rfl
      simp only [List.nodup_cons] at hknd
      have hsubrest : ∀ k1 ∈ rest, k1 ∈ (notifEntries (deleteProperty s k)).map Prod.fst := by
        intro k1 hk1
        have hne : k1 ≠ k := fun h => hknd.1 (h ▸ hk1)
        exact mem_notifKeys_deleteProperty hne (hsub k1 (List.mem_cons_of_mem _ hk1))
      rw [hstep, ih (nodup_keys_deleteProperty k hnd) hknd.2 hsubrest,
        countNotified_deleteProperty hnd (hsub k (List.mem_cons_self _ _))]
      simp only [List.length_cons]
      omega

theorem deleteProperty_of_not_mem {s : Store} {k : String}
    (h : k ∉ s.map Prod.fst) : deleteProperty s k = s := by
  refine List.filter_eq_self.mpr (fun e he => decide_eq_true ?_)
  intro hek
  exact h (List.mem_map.mpr ⟨e, he, hek⟩)

theorem deleteProps_of_not_mem {s : Store} {ks : List String}
    (h : ∀ k ∈ ks, k ∉ s.map Prod.fst) : deleteProps s ks = s := by
  induction ks with
  | nil => rfl
  | cons k rest ih =>
      have hstep : deleteProps s (k :: rest) = deleteProps (deleteProperty s k) rest := rfl
      rw [hstep, deleteProperty_of_not_mem (h k (List.mem_cons_self _ _))]
      exact ih (fun k1 hk1 => h k1 (List.mem_cons_of_mem _ hk1))

theorem deleteProps_append (s : Store) (ks1 ks2 : List String) :
    deleteProps s (ks1 ++ ks2) = deleteProps (deleteProps s ks1) ks2 :=
  List.foldl_append _ _ _ _

theorem length_filter_split {α : Type} (l : List α) (p : α → Bool) :
    (l.filter p).length + (l.filter (fun a => !(p a))).length = l.length := by
  induction l with
  | nil => rfl
  | cons a rest ih =>
      cases h : p a <;> simp [List.filter_cons, h] <;> omega

/-! ### Sortedness of the emergency pass -/

theorem sorted_takeWhile_filter (cut : Int) (l : List NotifRecord)
    (hs : List.Sorted recLE l) :
    l.takeWhile (fun r => decide (r.notifiedTime < cut)) =
      l.filter (fun r => decide (r.notifiedTime < cut)) ∧
    l.dropWhile (fun r => decide (r.notifiedTime < cut)) =
      l.filter (fun r => !(decide (r.notifiedTime < cut))) := by
  induction l with
  | nil => exact ⟨rfl, rfl⟩
  | cons a rest ih =>
      rw [List.sorted_cons] at hs
      have ih2 := ih hs.2
      by_cases h : a.notifiedTime < cut
      · constructor
        · simp [List.takeWhile_cons, List.filter_cons, h, ih2.1]
        · simp [List.dropWhile_cons, List.filter_cons, h, ih2.2]
      · have hall : ∀ b ∈ rest, ¬ b.notifiedTime < cut := by
          intro b hb
          have hab : a.notifiedTime ≤ b.notifiedTime := hs.1 b hb
          omega
        constructor
        · have hnil : rest.filter (fun r => decide (r.notifiedTime < cut)) = [] :=
            List.filter_eq_nil_iff.mpr (fun b hb => by simpa using hall b hb)
          simp [List.takeWhile_cons, List.filter_cons, h, hnil]
        · have hself : rest.filter (fun r => !(decide (r.notifiedTime < cut))) = rest :=
            List.filter_eq_self.mpr (fun b hb => by simpa using hall b hb)
          simp [List.dropWhile_cons, List.filter_cons, h, hself]

/-! ### Dispatch lemmas -/

theorem dispatchLoop_all_ok {fetchOk : Nat → Bool} (hok : ∀ i, fetchOk i = true) :
    ∀ (chs : List Channel) (i : Nat), dispatchLoop fetchOk chs i = (chs, true)
  | [], _ => rfl
  | c :: rest, i => by
      simp [dispatchLoop, hok i, dispatchLoop_all_ok hok rest (i + 1)]

theorem dispatchLoop_fail {fetchOk : Nat → Bool} :
    ∀ (chs : List Channel) (i j : Nat), j < chs.length → fetchOk (i + j) = false →
      (∀ t, t < j → fetchOk (i + t) = true) →
      dispatchLoop fetchOk chs i = (chs.take j, false)
  | [], _, j, hj, _, _ => by simp at hj
  | c :: rest, i, 0, _, hf, _ => by
      simp only [Nat.add_zero] at hf
      simp [dispatchLoop, hf]
  | c :: rest, i, j + 1, hj, hf, hpre => by
      have h0 : fetchOk i = true := by simpa using hpre 0 (Nat.succ_pos j)
      have hrec := dispatchLoop_fail rest (i + 1) j (Nat.lt_of_succ_lt_succ hj)
        (by rw [show i + 1 + j = i + (j + 1) by omega]; exact hf)
        (fun t ht => by
          rw [show i + 1 + t = i + (t + 1) by omega]
          exact hpre (t + 1) (Nat.succ_lt_succ ht))
      simp [dispatchLoop, h0, hrec, List.take_succ_cons]

theorem getChannelsToNotify_ne_nil (table : List (String × MeetingConfig))
    (mc : MatchedMeetingConfig) : getChannelsToNotify table mc ≠ [] := by
  rw [getChannelsToNotify]
  by_cases h : mc.pfx = communityPfx
  · simp [h]
  · simp only [h, if_false]
    cases lookupAssoc table communityPfx <;> simp

theorem processMeeting_fresh {table : List (String × MeetingConfig)} {m : Meeting}
    {s : Store} {now : Int} {fetchOk : Nat → Bool}
    (hnone : getProperty s (getMeetingNotificationKey m) = none)
    (hok : ∀ i, fetchOk i = true) :
    processMeeting table m s now fetchOk =
      ⟨recordNotificationSent s m now, getChannelsToNotify table m.config, []⟩ := by
  have h1 : hasAlreadyNotified s m = .ok false := by
    rw [hasAlreadyNotified, hnone]
  simp [processMeeting, h1, dispatchLoop_all_ok hok]

theorem processMeeting_already {table : List (String × MeetingConfig)} {m : Meeting}
    {s : Store} {now : Int} {fetchOk : Nat → Bool} {r : RecordData}
    (hsome : getProperty s (getMeetingNotificationKey m) = some (.json r)) :
    processMeeting table m s now fetchOk = ⟨s, [], []⟩ := by
  have h1 : hasAlreadyNotified s m = .ok true := by
    rw [hasAlreadyNotified, hsome]
  simp [processMeeting, h1]

theorem processMeetingIter_stall {table : List (String × MeetingConfig)} {m : Meeting}
    {now : Int} {fetchOk : Nat → Bool} {s1 : Store}
    (h : processMeeting table m s1 now fetchOk = ⟨s1, [], []⟩) :
    ∀ n, processMeetingIter table m now fetchOk n s1 = (s1, []) := by
  intro n
  induction n with
  | zero => rfl
  | succ k ih => simp [processMeetingIter, h, ih]

/-! ### First-match characterization of the two matchers -/

theorem findMatchingMeetingConfig_some_iff (table : List (String × MeetingConfig))
    (title : String) (r : MatchedMeetingConfig) :
    findMatchingMeetingConfig table title = some r ↔
      ∃ pre cfg post, table = pre ++ (r.pfx, cfg) :: post ∧
        jsStartsWith title r.pfx = true ∧
        r.slackWebhook = cfg.slackWebhook ∧ r.slackChannel = cfg.slackChannel ∧
        ∀ q ∈ pre, jsStartsWith title q.1 = false := by
  induction table with
  | nil =>
      constructor
      · intro h
        simp [findMatchingMeetingConfig] at h
      · rintro ⟨pre, cfg, post, heq, -⟩
        cases pre <;> simp at heq
  | cons e rest ih =>
      obtain ⟨p, cfg0⟩ := e
      by_cases hsw : jsStartsWith title p = true
      · rw [show findMatchingMeetingConfig ((p, cfg0) :: rest) title =
            some ⟨p, cfg0.slackWebhook, cfg0.slackChannel⟩ by
          simp [findMatchingMeetingConfig, hsw]]
        constructor
        · intro h
          rw [Option.some.injEq] at h
          subst h
          exact ⟨[], cfg0, rest, rfl, hsw, rfl, rfl, fun q hq => by simp at hq⟩
        · rintro ⟨pre, cfg, post, heq, hm, hw, hc, hpre⟩
          cases pre with
          | nil =>
              obtain ⟨rp, rwh, rch⟩ := r
              simp only [List.nil_append, List.cons.injEq, Prod.mk.injEq] at heq
              obtain ⟨⟨hp, hcfg⟩, -⟩ := heq
              subst hp
              subst hcfg
              simp only [Option.some.injEq, MatchedMeetingConfig.mk.injEq]
              exact ⟨trivial, hw.symm, hc.symm⟩
          | cons q pre2 =>
              simp only [List.cons_append, List.cons.injEq] at heq
              have hq := hpre q (List.mem_cons_self _ _)
              rw [← heq.1] at hq
              rw [hq] at hsw
              cases hsw
      · have hsw2 : jsStartsWith title p = false := eq_false_of_ne_true hsw
        rw [show findMatchingMeetingConfig ((p, cfg0) :: rest) title =
            findMatchingMeetingConfig rest title by
          simp [findMatchingMeetingConfig, hsw2]]
        rw [ih]
        constructor
        · rintro ⟨pre, cfg, post, heq, hm, hw, hc, hpre⟩
          refine ⟨(p, cfg0) :: pre, cfg, post, ?_, hm, hw, hc, ?_⟩
          · rw [List.cons_append, heq]
          · intro q hq
            rcases List.mem_cons.mp hq with hq | hq
            · rw [hq]
              exact hsw2
            · exact hpre q hq
        · rintro ⟨pre, cfg, post, heq, hm, hw, hc, hpre⟩
          cases pre with
          | nil =>
              simp only [List.nil_append, List.cons.injEq, Prod.mk.injEq] at heq
              rw [← heq.1.1] at hm
              rw [hm] at hsw2
              cases hsw2
          | cons q pre2 =>
              simp only [List.cons_append, List.cons.injEq] at heq
              refine ⟨pre2, cfg, post, heq.2, hm, hw, hc, ?_⟩
              intro q2 hq2
              exact hpre q2 (List.mem_cons_of_mem _ hq2)

theorem findMatchingMeetingConfig_none_iff (table : List (String × MeetingConfig))
    (title : String) :
    findMatchingMeetingConfig table title = none ↔
      ∀ q ∈ table, jsStartsWith title q.1 = false := by
  induction table with
  | nil => simp [findMatchingMeetingConfig]
  | cons e rest ih =>
      obtain ⟨p, cfg0⟩ := e
      by_cases hsw : jsStartsWith title p = true
      · simp [findMatchingMeetingConfig, hsw]
      · have hsw2 : jsStartsWith title p = false := eq_false_of_ne_true hsw
        simp only [findMatchingMeetingConfig, hsw2, Bool.false_eq_true, if_false]
        rw [ih]
        constructor
        · intro h q hq
          rcases List.mem_cons.mp hq with hq | hq
          · rw [hq]
            exact hsw2
          · exact h q hq
        · intro h q hq
          exact h q (List.mem_cons_of_mem _ hq)

theorem findMatchingConfig_some_iff (table : List (String × DriveConfig))
    (title : String) (r : FileMatch) :
    findMatchingConfig table title = some r ↔
      ∃ pre post, table = pre ++ (r.pfx, r.config) :: post ∧
        jsIncludes title r.pfx = true ∧
        r.isChat = jsIncludes title chatMarker ∧
        ∀ q ∈ pre, jsIncludes title q.1 = false := by
  induction table with
  | nil =>
      constructor
      · intro h
        simp [findMatchingConfig] at h
      · rintro ⟨pre, post, heq, -⟩
        cases pre <;> simp at heq
  | cons e rest ih =>
      obtain ⟨p, cfg0⟩ := e
      by_cases hsw : jsIncludes title p = true
      · rw [show findMatchingConfig ((p, cfg0) :: rest) title =
            some ⟨p, cfg0, jsIncludes title chatMarker⟩ by
          simp [findMatchingConfig, hsw]]
        constructor
        · intro h
          rw [Option.some.injEq] at h
          subst h
          exact ⟨[], rest, rfl, hsw, rfl, fun q hq => by simp at hq⟩
        · rintro ⟨pre, post, heq, hm, hchat, hpre⟩
          cases pre with
          | nil =>
              obtain ⟨rp, rcfg, rchat⟩ := r
              simp only [List.nil_append, List.cons.injEq, Prod.mk.injEq] at heq
              obtain ⟨⟨hp, hcfg⟩, -⟩ := heq
              subst hp
              subst hcfg
              simp only [Option.some.injEq, FileMatch.mk.injEq]
              exact ⟨trivial, trivial, hchat.symm⟩
          | cons q pre2 =>
              simp only [List.cons_append, List.cons.injEq] at heq
              have hq := hpre q (List.mem_cons_self _ _)
              rw [← heq.1] at hq
              rw [hq] at hsw
              cases hsw
      · have hsw2 : jsIncludes title p = false := eq_false_of_ne_true hsw
        rw [show findMatchingConfig ((p, cfg0) :: rest) title =
            findMatchingConfig rest title by
          simp [findMatchingConfig, hsw2]]
        rw [ih]
        constructor
        · rintro ⟨pre, post, heq, hm, hchat, hpre⟩
          refine ⟨(p, cfg0) :: pre, post, ?_, hm, hchat, ?_⟩
          · rw [List.cons_append, heq]
          · intro q hq
            rcases List.mem_cons.mp hq with hq | hq
            · rw [hq]
              exact hsw2
            · exact hpre q hq
        · rintro ⟨pre, post, heq, hm, hchat, hpre⟩
          cases pre with
          | nil =>
              simp only [List.nil_append, List.cons.injEq, Prod.mk.injEq] at heq
              rw [← heq.1.1] at hm
              rw [hm] at hsw2
              cases hsw2
          | cons q pre2 =>
              simp only [List.cons_append, List.cons.injEq] at heq
              refine ⟨pre2, post, heq.2, hm, hchat, ?_⟩
              intro q2 hq2
              exact hpre q2 (List.mem_cons_of_mem _ hq2)

theorem findMatchingConfig_none_iff (table : List (String × DriveConfig))
    (title : String) :
    findMatchingConfig table title = none ↔
      ∀ q ∈ table, jsIncludes title q.1 = false := by
  induction table with
  | nil => simp [findMatchingConfig]
  | cons e rest ih =>
      obtain ⟨p, cfg0⟩ := e
      by_cases hsw : jsIncludes title p = true
      · simp [findMatchingConfig, hsw]
      · have hsw2 : jsIncludes title p = false := eq_false_of_ne_true hsw
        simp only [findMatchingConfig, hsw2, Bool.false_eq_true, if_false]
        rw [ih]
        constructor
        · intro h q hq
          rcases List.mem_cons.mp hq with hq | hq
          · rw [hq]
            exact hsw2
          · exact h q hq
        · intro h q hq
          exact h q (List.mem_cons_of_mem _ hq)

/-! ### Concrete fixtures for witnesses and counterexamples -/

/-- A small configuration table: one SIG entry plus the community entry. -/
def tblW : List (String × MeetingConfig) :=
  [("[PUBLIC] llm-d sig-a", ⟨"wA", "#sig-a"⟩), (communityPfx, ⟨"wC", "#community"⟩)]

/-- A matched SIG meeting occurrence. -/
def mW : Meeting :=
  ⟨"[PUBLIC] llm-d sig-a standup", "ev1", 5000, ⟨"[PUBLIC] llm-d sig-a", "wA", "#sig-a"⟩⟩

/-- A small store holding configuration and three notification records. -/
def sW : Store :=
  [("cfg", .corrupt "x"),
   ("notified_a", .json ⟨"A", 0, 100⟩),
   ("notified_b", .corrupt "bad"),
   ("notified_c", .json ⟨"C", 0, 999999999⟩)]

/-! ### Claim C4 — tolerance window boundary -/

/-- C4 (counterexample): the claim's characterization "included iff
`|startTime - now| <= 90` seconds" fails at millisecond granularity: at
`startTime - now = 90500` ms the detector computes
`Math.floor(90.5) = 90` and includes the occurrence although the absolute
distance exceeds 90 seconds. -/
theorem c4_counterexample :
    meetingStartingNow 90500 0 = true ∧ ¬ (|(90500 : Int) - 0| ≤ 90000) :=
  ⟨by decide, by decide⟩

/-- C4 (amended): the detector includes an occurrence iff
`Math.floor((startTime - now) / 1000)` lies in `[-90, 90]`, i.e. iff
`startTime - now` lies in `[-90000 ms, 90999 ms]`; in particular every
`now` with `|startTime - now| <= 90` seconds is included, and
`now = startTime + 91 s` and `now = startTime - 91 s` are excluded. -/
theorem c4_tolerance_boundary (startTime now : Int) :
    (meetingStartingNow startTime now = true ↔
      (-90000 ≤ startTime - now ∧ startTime - now ≤ 90999)) ∧
    (|startTime - now| ≤ 90000 → meetingStartingNow startTime now = true) ∧
    meetingStartingNow startTime (startTime + 91000) = false ∧
    meetingStartingNow startTime (startTime - 91000) = false := by
  have hmain : ∀ a b : Int,
      (meetingStartingNow a b = true ↔ (-90000 ≤ a - b ∧ a - b ≤ 90999)) := by
    intro a b
    rw [meetingStartingNow, decide_eq_true_eq, abs_le,
      Int.fdiv_eq_ediv _ (by norm_num)]
    omega
  refine ⟨hmain startTime now, ?_, ?_, ?_⟩
  · intro h
    rw [abs_le] at h
    exact (hmain startTime now).mpr ⟨by omega, by omega⟩
  · cases h : meetingStartingNow startTime (startTime + 91000) with
    | false => rfl
    | true =>
        have := (hmain startTime (startTime + 91000)).mp h
        omega
  · cases h : meetingStartingNow startTime (startTime - 91000) with
    | false => rfl
    | true =>
        have := (hmain startTime (startTime - 91000)).mp h
        omega

/-- C4 (witness): the amended theorem applied at a concrete in-window
instant. -/
theorem c4_witness :
    (|(3000 : Int) - 0| ≤ 90000) ∧ meetingStartingNow 3000 0 = true :=
  ⟨by decide, (c4_tolerance_boundary 3000 0).2.1 (by decide)⟩

/-! ### Claim C7 — first-match prefix classification -/

/-- C7: both matchers return the configuration record of the first table
entry (in iteration order) matching the name — `startsWith` for the
calendar watcher, substring containment for the file mover (which also
tags the chat classification) — and `none` when no entry matches. -/
theorem c7_first_match_classification (calTable : List (String × MeetingConfig))
    (fileTable : List (String × DriveConfig)) (title : String) :
    (∀ r, findMatchingMeetingConfig calTable title = some r ↔
      ∃ pre cfg post, calTable = pre ++ (r.pfx, cfg) :: post ∧
        jsStartsWith title r.pfx = true ∧
        r.slackWebhook = cfg.slackWebhook ∧ r.slackChannel = cfg.slackChannel ∧
        ∀ q ∈ pre, jsStartsWith title q.1 = false) ∧
    (findMatchingMeetingConfig calTable title = none ↔
      ∀ q ∈ calTable, jsStartsWith title q.1 = false) ∧
    (∀ r, findMatchingConfig fileTable title = some r ↔
      ∃ pre post, fileTable = pre ++ (r.pfx, r.config) :: post ∧
        jsIncludes title r.pfx = true ∧
        r.isChat = jsIncludes title chatMarker ∧
        ∀ q ∈ pre, jsIncludes title q.1 = false) ∧
    (findMatchingConfig fileTable title = none ↔
      ∀ q ∈ fileTable, jsIncludes title q.1 = false) :=
  ⟨fun r => findMatchingMeetingConfig_some_iff calTable title r,
   findMatchingMeetingConfig_none_iff calTable title,
   fun r => findMatchingConfig_some_iff fileTable title r,
   findMatchingConfig_none_iff fileTable title⟩

/-- C7 (witness): the characterization evaluated on a concrete table
where the second entry is the first match. -/
theorem c7_witness :
    findMatchingMeetingConfig tblW ("[PUBLIC] llm-d Community Meeting sync") =
      some ⟨communityPfx, "wC", "#community"⟩ ∧
    (∃ pre cfg post,
      tblW = pre ++ ((⟨communityPfx, "wC", "#community"⟩ : MatchedMeetingConfig).pfx, cfg) :: post ∧
      jsStartsWith ("[PUBLIC] llm-d Community Meeting sync")
        (⟨communityPfx, "wC", "#community"⟩ : MatchedMeetingConfig).pfx = true ∧
      (⟨communityPfx, "wC", "#community"⟩ : MatchedMeetingConfig).slackWebhook = cfg.slackWebhook ∧
      (⟨communityPfx, "wC", "#community"⟩ : MatchedMeetingConfig).slackChannel = cfg.slackChannel ∧
      ∀ q ∈ pre, jsStartsWith ("[PUBLIC] llm-d Community Meeting sync") q.1 = false) :=
  ⟨by decide,
   ((c7_first_match_classification tblW [] ("[PUBLIC] llm-d Community Meeting sync")).1
     ⟨communityPfx, "wC", "#community"⟩).mp (by decide)⟩

/-! ### Claim C10 — frame property of the cleanup passes -/

/-- C10: both `cleanupOldNotificationRecords` and
`dailyCleanupNotificationRecords` delete only properties whose key starts
with the notification marker; any other key keeps its exact value. -/
theorem c10_cleanup_frame (s : Store) (now : Int) (k : String)
    (h : jsStartsWith k notifiedPfx = false) :
    getProperty (cleanupOldNotificationRecords s now) k = getProperty s k ∧
    getProperty (dailyCleanupNotificationRecords s now) k = getProperty s k := by
  have hnotin : ∀ ks : List String,
      (∀ k1 ∈ ks, jsStartsWith k1 notifiedPfx = true) → k ∉ ks := by
    intro ks hks hmem
    have := hks k hmem
    rw [this] at h
    cases h
  have hpasses : getProperty (cleanupPasses13 s now) k = getProperty s k := by
    rw [cleanupPasses13, getProperty_deleteProps,
      if_neg (hnotin _ (fun k1 hk1 => horizonKeys_startsWith hk1)),
      getProperty_deleteProps,
      if_neg (hnotin _ (fun k1 hk1 => corruptedKeys_startsWith hk1))]
  constructor
  · rw [cleanupOldNotificationRecords]
    by_cases hc : 48 ≤ remainingAfter s now
    · rw [if_pos hc, getProperty_deleteProps,
        if_neg (hnotin _ (fun k1 hk1 => emergencyKeys_startsWith hk1)), hpasses]
    · rw [if_neg hc, hpasses]
  · rw [dailyCleanupNotificationRecords, getProperty_deleteProps,
      if_neg (hnotin _ (fun k1 hk1 => dailyKeys_startsWith hk1))]

/-- C10 (witness): a configuration key survives both cleanups with its
value intact on a concrete store. -/
theorem c10_witness :
    jsStartsWith ("cfg") notifiedPfx = false ∧
    (getProperty (cleanupOldNotificationRecords sW 1000000000) ("cfg") =
        getProperty sW ("cfg") ∧
     getProperty (dailyCleanupNotificationRecords sW 1000000000) ("cfg") =
        getProperty sW ("cfg")) :=
  ⟨by decide, c10_cleanup_frame sW 1000000000 ("cfg") (by decide)⟩

/-! ### Claim C8 — channel fan-out -/

theorem lookupAssoc_eq_some_of_mem {α : Type} {l : List (String × α)} {k : String}
    {v : α} (hnd : (l.map Prod.fst).Nodup) (h : (k, v) ∈ l) :
    lookupAssoc l k = some v := by
  induction l with
  | nil => simp at h
  | cons e rest ih =>
      obtain ⟨k1, v1⟩ := e
      simp only [List.map_cons, List.nodup_cons] at hnd
      rcases List.mem_cons.mp h with h1 | h1
      · rw [Prod.mk.injEq] at h1
        simp [lookupAssoc, h1.1, h1.2]
      · have hk : k1 ≠ k := by
          intro hkk
          subst hkk
          exact hnd.1 (List.mem_map.mpr ⟨(k1, v), h1, rfl⟩)
        simp only [lookupAssoc, hk, if_false]
        exact ih hnd.2 h1

theorem findMatchingMeetingConfig_mem {table : List (String × MeetingConfig)}
    {title : String} {r : MatchedMeetingConfig}
    (h : findMatchingMeetingConfig table title = some r) :
    ∃ cfg, (r.pfx, cfg) ∈ table ∧ r.slackWebhook = cfg.slackWebhook ∧
      r.slackChannel = cfg.slackChannel := by
  rcases (findMatchingMeetingConfig_some_iff table title r).mp h with
    ⟨pre, cfg, post, heq, -, hw, hc, -⟩
  refine ⟨cfg, ?_, hw, hc⟩
  rw [heq]
  exact List.mem_append_right _ (List.mem_cons_self _ _)

/-- C8: a matched configuration whose key is the designated community
key resolves to exactly one destination (the community channel); any
other matched configuration resolves to exactly two destinations, its own
channel followed by the community channel. -/
theorem c8_channel_fanout (table : List (String × MeetingConfig))
    (mc : MatchedMeetingConfig) (cc : MeetingConfig)
    (hcc : lookupAssoc table communityPfx = some cc) :
    (mc.pfx = communityPfx →
      getChannelsToNotify table mc = [⟨mc.slackWebhook, mc.slackChannel⟩] ∧
      (getChannelsToNotify table mc).length = 1) ∧
    (mc.pfx ≠ communityPfx →
      getChannelsToNotify table mc =
        [⟨mc.slackWebhook, mc.slackChannel⟩, ⟨cc.slackWebhook, cc.slackChannel⟩] ∧
      (getChannelsToNotify table mc).length = 2) ∧
    (∀ title, (table.map Prod.fst).Nodup →
      findMatchingMeetingConfig table title = some mc → mc.pfx = communityPfx →
      getChannelsToNotify table mc = [⟨cc.slackWebhook, cc.slackChannel⟩]) := by
  refine ⟨?_, ?_, ?_⟩
  · intro h
    rw [getChannelsToNotify, if_pos h]
    exact ⟨rfl, rfl⟩
  · intro h
    rw [getChannelsToNotify, if_neg h, hcc]
    exact ⟨rfl, rfl⟩
  · intro title hnd hfind hp
    rcases findMatchingMeetingConfig_mem hfind with ⟨cfg, hmem, hw, hc⟩
    rw [hp] at hmem
    have hlook : lookupAssoc table communityPfx = some cfg :=
      lookupAssoc_eq_some_of_mem hnd hmem
    rw [hcc] at hlook
    have hcfg : cc = cfg := by injection hlook
    rw [getChannelsToNotify, if_pos hp, hw, hc, hcfg]

/-- C8 (witness): the fan-out evaluated on a concrete table — the SIG
configuration resolves to its own channel followed by the community
channel. -/
theorem c8_witness :
    lookupAssoc tblW communityPfx = some (⟨"wC", "#community"⟩ : MeetingConfig) ∧
    getChannelsToNotify tblW mW.config =
      [⟨"wA", "#sig-a"⟩, ⟨"wC", "#community"⟩] :=
  ⟨by decide,
   ((c8_channel_fanout tblW mW.config ⟨"wC", "#community"⟩ (by decide)).2.1
     (by decide)).1⟩

/-! ### Claim C9 — corrupted records at the tick boundary -/

/-- Store fixture holding an empty-string value under a notification
key. -/
def sEmptyVal : Store := [(getMeetingNotificationKey mW, StoredValue.corrupt (""))]

/-- Store fixture holding a non-empty unparseable value under a
notification key. -/
def sBadVal : Store := [(getMeetingNotificationKey mW, StoredValue.corrupt ("zz"))]

/-- C9 (counterexample): the empty string is not valid JSON, yet it fails
the JavaScript truthiness guard in `hasAlreadyNotified` before
`JSON.parse` runs, so `processMeeting` treats the meeting as new: it
dispatches to both channels and overwrites the corrupted value — against
every conclusion of the claim. -/
theorem c9_counterexample :
    getProperty sEmptyVal (getMeetingNotificationKey mW) =
      some (StoredValue.corrupt ("")) ∧
    processMeeting tblW mW sEmptyVal 7777 (fun _ => true) =
      ⟨[(getMeetingNotificationKey mW, .json ⟨mW.title, 5000, 7777⟩)],
       [⟨"wA", "#sig-a"⟩, ⟨"wC", "#community"⟩], []⟩ :=
  ⟨by decide, by decide⟩

/-- C9 (amended): for every meeting whose notification key holds a
non-empty stored value that is not valid JSON, `processMeeting`
dispatches nothing, writes nothing and leaves the corrupted value in
place: the `JSON.parse` failure inside `hasAlreadyNotified` propagates to
the per-meeting catch, which reports the error and returns. -/
theorem c9_corrupted_record_suppresses (table : List (String × MeetingConfig))
    (m : Meeting) (s : Store) (now : Int) (fetchOk : Nat → Bool) (raw : String)
    (hco : getProperty s (getMeetingNotificationKey m) = some (.corrupt raw))
    (hraw : raw ≠ ("")) :
    hasAlreadyNotified s m = .error jsonParseErr ∧
    processMeeting table m s now fetchOk = ⟨s, [], [jsonParseErr]⟩ ∧
    getProperty (processMeeting table m s now fetchOk).store
      (getMeetingNotificationKey m) = some (.corrupt raw) := by
  have h1 : hasAlreadyNotified s m = .error jsonParseErr := by
    simp [hasAlreadyNotified, hco, hraw]
  have h2 : processMeeting table m s now fetchOk = ⟨s, [], [jsonParseErr]⟩ := by
    simp [processMeeting, h1]
  refine ⟨h1, h2, ?_⟩
  rw [h2]
  exact hco

/-- C9 (witness): the amended theorem applied to a concrete store with a
non-empty corrupted record. -/
theorem c9_witness :
    (getProperty sBadVal (getMeetingNotificationKey mW) =
        some (StoredValue.corrupt ("zz")) ∧ ("zz" : String) ≠ ("")) ∧
    (hasAlreadyNotified sBadVal mW = .error jsonParseErr ∧
     processMeeting tblW mW sBadVal 7777 (fun _ => true) =
       ⟨sBadVal, [], [jsonParseErr]⟩ ∧
     getProperty (processMeeting tblW mW sBadVal 7777 (fun _ => true)).store
       (getMeetingNotificationKey mW) = some (StoredValue.corrupt ("zz"))) :=
  ⟨⟨by decide, by decide⟩,
   c9_corrupted_record_suppresses tblW mW sBadVal 7777 (fun _ => true) ("zz")
     (by decide) (by decide)⟩

/-! ### Claim C2 — partial dispatch failure -/

/-- C2 (counterexample): with two resolved destinations and the second
dispatch throwing after the first succeeded, `processMeeting` does NOT
write the NotificationRecord: the store is unchanged and the key is still
absent, so the meeting is reprocessed on later ticks — the claim asserts
the record is still written. -/
theorem c2_counterexample :
    (getChannelsToNotify tblW mW.config).length = 2 ∧
    processMeeting tblW mW [] 7777 (fun i => decide (i = 0)) =
      ⟨[], [⟨"wA", "#sig-a"⟩], [dispatchErr]⟩ ∧
    getProperty (processMeeting tblW mW [] 7777 (fun i => decide (i = 0))).store
      (getMeetingNotificationKey mW) = none :=
  ⟨by decide, by decide, by decide⟩

/-- C2 (amended): if the dispatch to destination `j` throws after the
earlier destinations succeeded, `processMeeting` reports the failure but
does NOT write the NotificationRecord: the store is returned unchanged
(the earlier destinations were already dispatched to), so the meeting is
dispatched again in full on subsequent ticks. -/
theorem c2_throwing_dispatch_skips_record (table : List (String × MeetingConfig))
    (m : Meeting) (s : Store) (now : Int) (fetchOk : Nat → Bool) (j : Nat)
    (hnew : getProperty s (getMeetingNotificationKey m) = none)
    (hj : j < (getChannelsToNotify table m.config).length)
    (hfail : fetchOk j = false)
    (hpre : ∀ t, t < j → fetchOk t = true) :
    processMeeting table m s now fetchOk =
      ⟨s, (getChannelsToNotify table m.config).take j, [dispatchErr]⟩ ∧
    getProperty (processMeeting table m s now fetchOk).store
      (getMeetingNotificationKey m) = none := by
  have h1 : hasAlreadyNotified s m = .ok false := by
    rw [hasAlreadyNotified, hnew]
  have hd : dispatchLoop fetchOk (getChannelsToNotify table m.config) 0 =
      ((getChannelsToNotify table m.config).take j, false) :=
    dispatchLoop_fail _ 0 j hj (by simpa using hfail)
      (fun t ht => by simpa using hpre t ht)
  have h2 : processMeeting table m s now fetchOk =
      ⟨s, (getChannelsToNotify table m.config).take j, [dispatchErr]⟩ := by
    simp [processMeeting, h1, hd]
  refine ⟨h2, ?_⟩
  rw [h2]
  exact hnew

/-- C2 (witness): the amended theorem applied with two destinations and a
throw on the second dispatch. -/
theorem c2_witness :
    (getProperty ([] : Store) (getMeetingNotificationKey mW) = none ∧
     1 < (getChannelsToNotify tblW mW.config).length) ∧
    (processMeeting tblW mW [] 7777 (fun i => decide (i = 0)) =
       ⟨[], (getChannelsToNotify tblW mW.config).take 1, [dispatchErr]⟩ ∧
     getProperty (processMeeting tblW mW [] 7777 (fun i => decide (i = 0))).store
       (getMeetingNotificationKey mW) = none) :=
  ⟨⟨rfl, by decide⟩,
   c2_throwing_dispatch_skips_record tblW mW [] 7777 (fun i => decide (i = 0)) 1
     rfl (by decide) (by decide)
     (fun t ht => by
       have h0 : t = 0 := by omega
       rw [h0]
       rfl)⟩

/-! ### Claim C1 — idempotent notification -/

/-- C1: starting from a store without the occurrence's record, running
`processMeeting` any number `n ≥ 1` of times at a fixed instant with the
occurrence unchanged, matched, inside the tolerance window, and every
dispatch succeeding, dispatches exactly the first run's channel list,
leaves exactly one NotificationRecord under
`notified_<eventId>_<startTimeISO>`, and every later run finds
`hasAlreadyNotified` true and dispatches nothing. -/
theorem c1_idempotent_notification (table : List (String × MeetingConfig))
    (m : Meeting) (s0 : Store) (now : Int) (n : Nat)
    (_hmatch : findMatchingMeetingConfig table m.title = some m.config)
    (_hwin : meetingStartingNow m.startTime now = true)
    (hnew : getProperty s0 (getMeetingNotificationKey m) = none)
    (hn : 1 ≤ n) :
    (processMeetingIter table m now (fun _ => true) n s0).1 =
      recordNotificationSent s0 m now ∧
    (processMeetingIter table m now (fun _ => true) n s0).2 =
      getChannelsToNotify table m.config ∧
    (processMeetingIter table m now (fun _ => true) n s0).2 ≠ [] ∧
    getProperty (processMeetingIter table m now (fun _ => true) n s0).1
      (getMeetingNotificationKey m) = some (.json ⟨m.title, m.startTime, now⟩) ∧
    countKey (processMeetingIter table m now (fun _ => true) n s0).1
      (getMeetingNotificationKey m) = 1 ∧
    hasAlreadyNotified (processMeetingIter table m now (fun _ => true) n s0).1 m =
      .ok true ∧
    processMeeting table m (processMeetingIter table m now (fun _ => true) n s0).1
      now (fun _ => true) =
      ⟨(processMeetingIter table m now (fun _ => true) n s0).1, [], []⟩ := by
  obtain ⟨k, rfl⟩ : ∃ k, n = k + 1 := ⟨n - 1, by omega⟩
  have hfirst : processMeeting table m s0 now (fun _ => true) =
      ⟨recordNotificationSent s0 m now, getChannelsToNotify table m.config, []⟩ :=
    processMeeting_fresh hnew (fun _ => rfl)
  have hget1 : getProperty (recordNotificationSent s0 m now)
      (getMeetingNotificationKey m) = some (.json ⟨m.title, m.startTime, now⟩) :=
    getProperty_setProperty_self s0 (getMeetingNotificationKey m) _
  have hstall : processMeeting table m (recordNotificationSent s0 m now) now
      (fun _ => true) = ⟨recordNotificationSent s0 m now, [], []⟩ :=
    processMeeting_already hget1
  have hres : processMeetingIter table m now (fun _ => true) (k + 1) s0 =
      (recordNotificationSent s0 m now, getChannelsToNotify table m.config) := by
    simp [processMeetingIter, hfirst, processMeetingIter_stall hstall k]
  have hkeys : getMeetingNotificationKey m ∉ s0.map Prod.fst :=
    getProperty_eq_none_iff.mp hnew
  have hcount : countKey (recordNotificationSent s0 m now)
      (getMeetingNotificationKey m) = 1 := by
    rw [recordNotificationSent, setProperty_of_not_mem _ hkeys,
      countKey_append_single, countKey_eq_zero_of_not_mem hkeys]
  refine ⟨?_, ?_, ?_, ?_, ?_, ?_, ?_⟩
  · rw [hres]
  · rw [hres]
  · rw [hres]
    exact getChannelsToNotify_ne_nil table m.config
  · rw [hres]
    exact hget1
  · rw [hres]
    exact hcount
  · rw [hres]
    simp [hasAlreadyNotified, hget1]
  · rw [hres]
    exact hstall

/-- C1 (witness): three consecutive runs on a fresh store dispatch the
two channels once and leave one record. -/
theorem c1_witness :
    (getProperty ([] : Store) (getMeetingNotificationKey mW) = none ∧ 1 ≤ 3) ∧
    (processMeetingIter tblW mW 5000 (fun _ => true) 3 []).2 =
      getChannelsToNotify tblW mW.config ∧
    countKey (processMeetingIter tblW mW 5000 (fun _ => true) 3 []).1
      (getMeetingNotificationKey mW) = 1 :=
  ⟨⟨rfl, by decide⟩,
   (c1_idempotent_notification tblW mW [] 5000 3 (by decide) (by decide) rfl
     (by decide)).2.1,
   (c1_idempotent_notification tblW mW [] 5000 3 (by decide) (by decide) rfl
     (by decide)).2.2.2.2.1⟩

/-! ### Claim C6 — pairing completeness of the grouper -/

theorem mem_of_lookupAssoc_eq_some {α : Type} {l : List (String × α)} {k : String}
    {v : α} (h : lookupAssoc l k = some v) : (k, v) ∈ l := by
  induction l with
  | nil => simp [lookupAssoc] at h
  | cons e rest ih =>
      obtain ⟨k1, v1⟩ := e
      by_cases h1 : k1 = k
      · subst h1
        simp [lookupAssoc] at h
        simp [h]
      · simp only [lookupAssoc, h1, if_false] at h
        exact List.mem_cons_of_mem _ (ih h)

theorem addToGroups_flag {gs : List (String × GroupData)} {p : String}
    {cfg : DriveConfig} {chat : Bool} {f : FileItem}
    (hinv : ∀ e ∈ gs, e.2.isChat = chat) :
    ∀ e ∈ addToGroups gs p cfg chat f, e.2.isChat = chat := by
  induction gs with
  | nil =>
      intro e he
      simp only [addToGroups, List.mem_singleton] at he
      rw [he]
  | cons g rest ih =>
      obtain ⟨q, gd⟩ := g
      intro e he
      rw [addToGroups] at he
      by_cases hq : q = p
      · rw [if_pos hq] at he
        rcases List.mem_cons.mp he with he | he
        · rw [he]
          exact hinv (q, gd) (List.mem_cons_self _ _)
        · exact hinv e (List.mem_cons_of_mem _ he)
      · rw [if_neg hq] at he
        rcases List.mem_cons.mp he with he | he
        · rw [he]
          exact hinv (q, gd) (List.mem_cons_self _ _)
        · exact ih (fun e2 he2 => hinv e2 (List.mem_cons_of_mem _ he2)) e he

theorem buildGroupsAux_flags (table : List (String × DriveConfig)) :
    ∀ (files : List FileItem)
      (acc : List (String × GroupData) × List (String × GroupData)),
      (∀ e ∈ acc.1, e.2.isChat = false) → (∀ e ∈ acc.2, e.2.isChat = true) →
      (∀ e ∈ (buildGroupsAux table files acc).1, e.2.isChat = false) ∧
      (∀ e ∈ (buildGroupsAux table files acc).2, e.2.isChat = true)
  | [], acc, h1, h2 => ⟨h1, h2⟩
  | f :: fs, acc, h1, h2 => by
      cases hm : findMatchingConfig table f.title with
      | none =>
          have hstep : buildGroupsAux table (f :: fs) acc = buildGroupsAux table fs acc := by
            simp [buildGroupsAux, hm]
          rw [hstep]
          exact buildGroupsAux_flags table fs acc h1 h2
      | some m =>
          by_cases hchat : m.isChat
          · have hstep : buildGroupsAux table (f :: fs) acc =
                buildGroupsAux table fs (acc.1, addToGroups acc.2 m.pfx m.config true f) := by
              simp [buildGroupsAux, hm, hchat]
            rw [hstep]
            exact buildGroupsAux_flags table fs _ h1 (addToGroups_flag h2)
          · have hstep : buildGroupsAux table (f :: fs) acc =
                buildGroupsAux table fs (addToGroups acc.1 m.pfx m.config false f, acc.2) := by
              simp [buildGroupsAux, hm, hchat]
            rw [hstep]
            exact buildGroupsAux_flags table fs _ (addToGroups_flag h1) h2

/-- C6: a regular (non-chat) group built for a key is kept by
`groupFilesByMeetingConfig` iff it holds at least one file whose title
contains the notes marker and at least one whose title contains the
recording marker; a regular group with no notes-role file (e.g. only a
recording) is dropped; every chat group is kept unconditionally under its
`_chat` key. -/
theorem c6_pairing_completeness (table : List (String × DriveConfig))
    (files : List FileItem) (p : String) (gd : GroupData) :
    (lookupAssoc (buildGroups table files).1 p = some gd →
      ((p, gd) ∈ groupFilesByMeetingConfig table files ↔
        (∃ f ∈ gd.files, jsIncludes f.title notesMarker = true) ∧
        (∃ f ∈ gd.files, jsIncludes f.title recordingMarker = true))) ∧
    (lookupAssoc (buildGroups table files).1 p = some gd →
      (∀ f ∈ gd.files, jsIncludes f.title notesMarker = false) →
      (p, gd) ∉ groupFilesByMeetingConfig table files) ∧
    (lookupAssoc (buildGroups table files).2 p = some gd →
      (p ++ chatSuffix, gd) ∈ groupFilesByMeetingConfig table files) := by
  have hflags := buildGroupsAux_flags table files ([], [])
    (fun e he => by simp at he) (fun e he => by simp at he)
  have hmain : lookupAssoc (buildGroups table files).1 p = some gd →
      ((p, gd) ∈ groupFilesByMeetingConfig table files ↔
        (∃ f ∈ gd.files, jsIncludes f.title notesMarker = true) ∧
        (∃ f ∈ gd.files, jsIncludes f.title recordingMarker = true)) := by
    intro hl
    have hmem : (p, gd) ∈ (buildGroups table files).1 := mem_of_lookupAssoc_eq_some hl
    have hreg : gd.isChat = false := hflags.1 (p, gd) hmem
    constructor
    · intro hout
      rcases List.mem_append.mp hout with hfil | hchat
      · have hp := (List.mem_filter.mp hfil).2
        simpa [hasCompletePair, List.any_eq_true] using hp
      · rcases List.mem_map.mp hchat with ⟨e, he, heq⟩
        have hec : e.2.isChat = true := hflags.2 e he
        have hgd : e.2 = gd := congrArg Prod.snd heq
        rw [hgd] at hec
        rw [hec] at hreg
        cases hreg
    · rintro ⟨hn, hr⟩
      refine List.mem_append.mpr (Or.inl (List.mem_filter.mpr ⟨hmem, ?_⟩))
      simpa [hasCompletePair, List.any_eq_true] using ⟨hn, hr⟩
  refine ⟨hmain, ?_, ?_⟩
  · intro hl hnone hout
    rcases (hmain hl).mp hout with ⟨⟨f, hf, hfn⟩, -⟩
    rw [hnone f hf] at hfn
    cases hfn
  · intro hl
    have hmem : (p, gd) ∈ (buildGroups table files).2 := mem_of_lookupAssoc_eq_some hl
    exact List.mem_append.mpr (Or.inr (List.mem_map.mpr ⟨(p, gd), hmem, rfl⟩))

/-- File-mover configuration fixture. -/
def dTblW : List (String × DriveConfig) := [("[X] sig-foo", ⟨"F1", "W1", "#f"⟩)]

/-- A notes-role file fixture. -/
def fNotesW : FileItem := ⟨"1", "[X] sig-foo Notes by Gemini"⟩

/-- A recording-role file fixture. -/
def fRecW : FileItem := ⟨"2", "[X] sig-foo Recording"⟩

/-- C6 (witness): the group holding both roles is actionable on a
concrete listing. -/
theorem c6_witness :
    lookupAssoc (buildGroups dTblW [fRecW, fNotesW]).1 ("[X] sig-foo") =
      some (⟨⟨"F1", "W1", "#f"⟩, [fRecW, fNotesW], false⟩ : GroupData) ∧
    ("[X] sig-foo", (⟨⟨"F1", "W1", "#f"⟩, [fRecW, fNotesW], false⟩ : GroupData)) ∈
      groupFilesByMeetingConfig dTblW [fRecW, fNotesW] :=
  ⟨by decide,
   ((c6_pairing_completeness dTblW [fRecW, fNotesW] ("[X] sig-foo")
       ⟨⟨"F1", "W1", "#f"⟩, [fRecW, fNotesW], false⟩).1 (by decide)).mpr (by decide)⟩

/-! ### Claim C5 — adaptive horizon deletion (before the emergency pass) -/

/-- C5: after the corrupted-record pass and the horizon-based pass (and
before the emergency pass), every unparseable notification record is
gone regardless of age; with the horizon chosen from the total
notification-record count (`>= 45 → 4 h`, `>= 30 → 8 h`, else `24 h`),
every parseable record older than the horizon is gone; every parseable
record at least as young as the horizon is untouched; and keys without
the notification marker are untouched. -/
theorem c5_adaptive_horizon (s : Store) (now : Int)
    (hnd : (s.map Prod.fst).Nodup) (k : String) :
    (∀ raw, getProperty s k = some (.corrupt raw) →
      jsStartsWith k notifiedPfx = true →
      getProperty (cleanupPasses13 s now) k = none) ∧
    (∀ r : RecordData, getProperty s k = some (.json r) →
      jsStartsWith k notifiedPfx = true →
      r.notifiedAt < now - (if 45 ≤ countNotified s then (4 : Int)
        else if 30 ≤ countNotified s then 8 else 24) * 60 * 60 * 1000 →
      getProperty (cleanupPasses13 s now) k = none) ∧
    (∀ r : RecordData, getProperty s k = some (.json r) →
      ¬ r.notifiedAt < now - (if 45 ≤ countNotified s then (4 : Int)
        else if 30 ≤ countNotified s then 8 else 24) * 60 * 60 * 1000 →
      getProperty (cleanupPasses13 s now) k = some (.json r)) ∧
    (jsStartsWith k notifiedPfx = false →
      getProperty (cleanupPasses13 s now) k = getProperty s k) := by
  have hcut : cutoffTime s now =
      now - (if 45 ≤ countNotified s then (4 : Int)
        else if 30 ≤ countNotified s then 8 else 24) * 60 * 60 * 1000 := by
    rw [cutoffTime, collect_length_eq]
    rfl
  refine ⟨?_, ?_, ?_, ?_⟩
  · intro raw hco hsw
    have hk1 : k ∈ corruptedKeys s :=
      mem_corruptedKeys.mpr ⟨⟨raw, mem_of_getProperty_eq_some hco⟩, hsw⟩
    rw [cleanupPasses13, getProperty_deleteProps]
    by_cases h2 : k ∈ horizonKeys s now
    · rw [if_pos h2]
    · rw [if_neg h2, getProperty_deleteProps, if_pos hk1]
  · intro r hco hsw hold
    rw [← hcut] at hold
    have hk2 : k ∈ horizonKeys s now :=
      mem_horizonKeys.mpr ⟨⟨r, mem_of_getProperty_eq_some hco, hold⟩, hsw⟩
    rw [cleanupPasses13, getProperty_deleteProps, if_pos hk2]
  · intro r hco hy
    rw [← hcut] at hy
    have hk2 : k ∉ horizonKeys s now := by
      intro hk2
      rcases mem_horizonKeys.mp hk2 with ⟨⟨r2, hmem2, hold2⟩, -⟩
      have hco2 : getProperty s k = some (.json r2) :=
        getProperty_eq_some_of_mem hnd hmem2
      rw [hco] at hco2
      have hr : r = r2 := by
        injection hco2 with hco3
        injection hco3
      rw [← hr] at hold2
      exact hy hold2
    have hk1 : k ∉ corruptedKeys s := by
      intro hk1
      rcases mem_corruptedKeys.mp hk1 with ⟨⟨raw, hmem1⟩, -⟩
      have hco2 : getProperty s k = some (.corrupt raw) :=
        getProperty_eq_some_of_mem hnd hmem1
      rw [hco] at hco2
      exact StoredValue.noConfusion (Option.some.inj hco2)
    rw [cleanupPasses13, getProperty_deleteProps, if_neg hk2,
      getProperty_deleteProps, if_neg hk1]
    exact hco
  · intro hsw
    have hnot : ∀ ks : List String,
        (∀ k1 ∈ ks, jsStartsWith k1 notifiedPfx = true) → k ∉ ks := by
      intro ks hks hmem
      have := hks k hmem
      rw [this] at hsw
      cases hsw
    rw [cleanupPasses13, getProperty_deleteProps,
      if_neg (hnot _ (fun k1 hk1 => horizonKeys_startsWith hk1)),
      getProperty_deleteProps,
      if_neg (hnot _ (fun k1 hk1 => corruptedKeys_startsWith hk1))]

/-- C5 (witness): the corrupted record of the concrete store is deleted
by the pre-emergency passes. -/
theorem c5_witness :
    ((sW.map Prod.fst).Nodup ∧
     getProperty sW ("notified_b") = some (StoredValue.corrupt ("bad")) ∧
     jsStartsWith ("notified_b") notifiedPfx = true) ∧
    getProperty (cleanupPasses13 sW 1000000000) ("notified_b") = none :=
  ⟨⟨by decide, by decide, by decide⟩,
   (c5_adaptive_horizon sW 1000000000 (by decide) ("notified_b")).1 ("bad")
     (by decide) (by decide)⟩

/-! ### Claim C3 — helper lemmas for the emergency pass -/

theorem mem_corruptedKeys_rec {s : Store} {k : String} :
    k ∈ corruptedKeys s ↔
      ∃ r, r ∈ collectRecords s ∧ r.data.isNone = true ∧ r.key = k := by
  simp only [corruptedKeys, List.mem_map, List.mem_filter]
  constructor
  · rintro ⟨r, ⟨h1, h2⟩, h3⟩
    exact ⟨r, h1, h2, h3⟩
  · rintro ⟨r, h1, h2, h3⟩
    exact ⟨r, ⟨h1, h2⟩, h3⟩

theorem mem_horizonKeys_rec {s : Store} {now : Int} {k : String} :
    k ∈ horizonKeys s now ↔
      ∃ r, r ∈ collectRecords s ∧ r.data.isSome = true ∧
        r.notifiedTime < cutoffTime s now ∧ r.key = k := by
  simp only [horizonKeys, List.mem_map, List.mem_filter, Bool.and_eq_true,
    decide_eq_true_eq]
  constructor
  · rintro ⟨r, ⟨h1, h2, h3⟩, h4⟩
    exact ⟨r, h1, h2, h3, h4⟩
  · rintro ⟨r, h1, h2, h3, h4⟩
    exact ⟨r, ⟨h1, h2, h3⟩, h4⟩

theorem key_mem_notifKeys {s : Store} {r : NotifRecord}
    (h : r ∈ collectRecords s) : r.key ∈ (notifEntries s).map Prod.fst := by
  rw [← collect_keys_eq]
  exact List.mem_map.mpr ⟨r, h, rfl⟩

theorem deleteProps_sublist (s : Store) (ks : List String) :
    (deleteProps s ks).Sublist s := by
  induction ks generalizing s with
  | nil => exact List.Sublist.refl s
  | cons k rest ih =>
      have hstep : deleteProps s (k :: rest) = deleteProps (deleteProperty s k) rest := rfl
      rw [hstep]
      exact (ih (deleteProperty s k)).trans (List.filter_sublist s)

theorem nodup_keys_deleteProps {s : Store} (ks : List String)
    (hnd : (s.map Prod.fst).Nodup) : ((deleteProps s ks).map Prod.fst).Nodup :=
  hnd.sublist ((deleteProps_sublist s ks).map Prod.fst)

theorem mem_notifKeys_deleteProps {s : Store} {ks : List String} {k : String}
    (hk : k ∉ ks) (h : k ∈ (notifEntries s).map Prod.fst) :
    k ∈ (notifEntries (deleteProps s ks)).map Prod.fst := by
  induction ks generalizing s with
  | nil => exact h
  | cons k0 rest ih =>
      have hstep : deleteProps s (k0 :: rest) = deleteProps (deleteProperty s k0) rest := rfl
      rw [hstep]
      have hk0 : k ≠ k0 := fun hkk => hk (hkk ▸ List.mem_cons_self _ _)
      exact ih (fun hmem => hk (List.mem_cons_of_mem _ hmem))
        (mem_notifKeys_deleteProperty hk0 h)

theorem nodup_corruptedKeys {s : Store} (hnd : (s.map Prod.fst).Nodup) :
    (corruptedKeys s).Nodup := by
  rw [corruptedKeys]
  exact (nodup_collect_keys hnd).sublist
    ((List.filter_sublist (collectRecords s)).map (fun r => r.key))

theorem nodup_horizonKeys {s : Store} (now : Int) (hnd : (s.map Prod.fst).Nodup) :
    (horizonKeys s now).Nodup := by
  rw [horizonKeys]
  exact (nodup_collect_keys hnd).sublist
    ((List.filter_sublist (collectRecords s)).map (fun r => r.key))

theorem nodup_sorted_keys {s : Store} (hnd : (s.map Prod.fst).Nodup) :
    ((sortedRecords s).map (fun r => r.key)).Nodup := by
  have hperm := List.perm_insertionSort recLE
    ((collectRecords s).filter (fun r => r.data.isSome))
  have hvalid : (((collectRecords s).filter (fun r => r.data.isSome)).map
      (fun r => r.key)).Nodup :=
    (nodup_collect_keys hnd).sublist
      ((List.filter_sublist (collectRecords s)).map (fun r => r.key))
  rw [sortedRecords]
  exact ((hperm.map (fun r => r.key)).symm.nodup hvalid)

/-- C3 (amended): the emergency pass deletes oldest-first from the
snapshot of parseable records taken before the earlier passes, so its
deletions overlap the horizon pass's (overlapping `deleteProperty` calls
are no-ops). When the passes leave `remaining >= 48` and the horizon pass
deleted `d` parseable records with `d <= remaining - 40`, exactly
`40 + d` notification records remain — at most 40 only when `d = 0`. -/
theorem c3_emergency_pass (s : Store) (now : Int)
    (hnd : (s.map Prod.fst).Nodup)
    (htrig : 48 ≤ remainingAfter s now)
    (hdle : (horizonKeys s now).length ≤ remainingAfter s now - 40) :
    countNotified (cleanupOldNotificationRecords s now) =
      40 + (horizonKeys s now).length := by
  have hsortedEq : sortedRecords s =
      List.insertionSort recLE ((collectRecords s).filter (fun r => r.data.isSome)) := rfl
  have hsorted : List.Sorted recLE (sortedRecords s) := by
    rw [hsortedEq]
    exact List.sorted_insertionSort recLE _
  have hperm : List.Perm (sortedRecords s)
      ((collectRecords s).filter (fun r => r.data.isSome)) := by
    rw [hsortedEq]
    exact List.perm_insertionSort recLE _
  have htw := sorted_takeWhile_filter (cutoffTime s now) (sortedRecords s) hsorted
  have hdEq : (horizonKeys s now).length =
      (((collectRecords s).filter (fun r => r.data.isSome)).filter
        (fun r => decide (r.notifiedTime < cutoffTime s now))).length := by
    rw [horizonKeys, List.length_map, List.filter_filter]
    congr 1
    refine List.filter_congr (fun a _ => ?_)
    exact Bool.and_comm _ _
  have hAlen : ((sortedRecords s).takeWhile
      (fun r => decide (r.notifiedTime < cutoffTime s now))).length =
      (horizonKeys s now).length := by
    rw [htw.1, (hperm.filter _).length_eq]
    exact hdEq.symm
  have hsplitLen := length_filter_split (sortedRecords s)
    (fun r => decide (r.notifiedTime < cutoffTime s now))
  have hslen : (sortedRecords s).length =
      ((collectRecords s).filter (fun r => r.data.isSome)).length := hperm.length_eq
  have hcsplit := length_filter_split (collectRecords s) (fun r => r.data.isNone)
  have hvalidnot : (collectRecords s).filter (fun r => r.data.isSome) =
      (collectRecords s).filter (fun r => !(r.data.isNone)) :=
    List.filter_congr (fun a _ => by cases a.data <;> rfl)
  have hcEq : (corruptedKeys s).length =
      ((collectRecords s).filter (fun r => r.data.isNone)).length := by
    rw [corruptedKeys, List.length_map]
  have hvlen : ((collectRecords s).filter (fun r => r.data.isSome)).length +
      (corruptedKeys s).length = (collectRecords s).length := by
    rw [congrArg List.length hvalidnot, hcEq]
    omega
  have hLL : (collectRecords s).length = countNotified s := collect_length_eq s
  have hrem : remainingAfter s now =
      (collectRecords s).length -
        ((corruptedKeys s).length + (horizonKeys s now).length) := rfl
  have hBfilterLen : ((sortedRecords s).dropWhile
      (fun r => decide (r.notifiedTime < cutoffTime s now))).length =
      ((collectRecords s).filter (fun r => r.data.isSome)).length -
        (horizonKeys s now).length := by
    have h1 : ((sortedRecords s).takeWhile
        (fun r => decide (r.notifiedTime < cutoffTime s now))).length +
        ((sortedRecords s).dropWhile
          (fun r => decide (r.notifiedTime < cutoffTime s now))).length =
        (sortedRecords s).length := by
      rw [← List.length_append, List.takeWhile_append_dropWhile]
    omega
  have htake : (sortedRecords s).take (remainingAfter s now - 40) =
      ((sortedRecords s).takeWhile
        (fun r => decide (r.notifiedTime < cutoffTime s now))) ++
      (((sortedRecords s).dropWhile
        (fun r => decide (r.notifiedTime < cutoffTime s now))).take
          (remainingAfter s now - 40 - (horizonKeys s now).length)) := by
    conv_lhs =>
      rw [← List.takeWhile_append_dropWhile
        (fun r => decide (r.notifiedTime < cutoffTime s now)) (sortedRecords s)]
    rw [List.take_append_eq_append_take, hAlen,
      List.take_of_length_le (le_trans (le_of_eq hAlen) hdle)]
  have hEk : emergencyKeys s now =
      (((sortedRecords s).takeWhile
        (fun r => decide (r.notifiedTime < cutoffTime s now))).map (fun r => r.key)) ++
      ((((sortedRecords s).dropWhile
        (fun r => decide (r.notifiedTime < cutoffTime s now))).take
          (remainingAfter s now - 40 - (horizonKeys s now).length)).map
          (fun r => r.key)) := by
    rw [emergencyKeys, htake, List.map_append]
  have hclean : cleanupOldNotificationRecords s now =
      deleteProps
        (deleteProps (cleanupPasses13 s now)
          (((sortedRecords s).takeWhile
            (fun r => decide (r.notifiedTime < cutoffTime s now))).map (fun r => r.key)))
        ((((sortedRecords s).dropWhile
          (fun r => decide (r.notifiedTime < cutoffTime s now))).take
            (remainingAfter s now - 40 - (horizonKeys s now).length)).map
            (fun r => r.key)) := by
    rw [cleanupOldNotificationRecords, if_pos htrig, hEk, deleteProps_append]
  have hnop : deleteProps (cleanupPasses13 s now)
      (((sortedRecords s).takeWhile
        (fun r => decide (r.notifiedTime < cutoffTime s now))).map (fun r => r.key)) =
      cleanupPasses13 s now := by
    apply deleteProps_of_not_mem
    intro k hk
    rcases List.mem_map.mp hk with ⟨r, hrA, hkey⟩
    rw [htw.1] at hrA
    have hr1 := List.mem_filter.mp hrA
    have hrvalid := List.mem_filter.mp (hperm.mem_iff.mp hr1.1)
    have hkH : k ∈ horizonKeys s now :=
      mem_horizonKeys_rec.mpr ⟨r, hrvalid.1, hrvalid.2,
        of_decide_eq_true hr1.2, hkey⟩
    have hnone : getProperty (cleanupPasses13 s now) k = none := by
      rw [cleanupPasses13, getProperty_deleteProps, if_pos hkH]
    exact getProperty_eq_none_iff.mp hnone
  have hcount2 : countNotified (cleanupPasses13 s now) =
      countNotified s - (corruptedKeys s).length - (horizonKeys s now).length := by
    have hsub1 : ∀ k ∈ corruptedKeys s, k ∈ (notifEntries s).map Prod.fst := by
      intro k hk
      rcases mem_corruptedKeys_rec.mp hk with ⟨r, hrc, -, hrk⟩
      rw [← hrk]
      exact key_mem_notifKeys hrc
    have hsub2 : ∀ k ∈ horizonKeys s now,
        k ∈ (notifEntries (deleteProps s (corruptedKeys s))).map Prod.fst := by
      intro k hk
      rcases mem_horizonKeys_rec.mp hk with ⟨r, hrc, hrsome, -, hrk⟩
      have hnotc : k ∉ corruptedKeys s := by
        intro hk1
        rcases mem_corruptedKeys_rec.mp hk1 with ⟨r1, hr1c, hr1n, hr1k⟩
        have hreq : r1 = r := collect_key_inj hnd hr1c hrc (hr1k.trans hrk.symm)
        rw [hreq, Option.isNone_iff_eq_none] at hr1n
        rw [hr1n] at hrsome
        simp at hrsome
      apply mem_notifKeys_deleteProps hnotc
      rw [← hrk]
      exact key_mem_notifKeys hrc
    rw [cleanupPasses13,
      countNotified_deleteProps (nodup_keys_deleteProps _ hnd)
        (nodup_horizonKeys now hnd) hsub2,
      countNotified_deleteProps hnd (nodup_corruptedKeys hnd) hsub1]
  have hnd2 : ((cleanupPasses13 s now).map Prod.fst).Nodup := by
    rw [cleanupPasses13]
    exact nodup_keys_deleteProps _ (nodup_keys_deleteProps _ hnd)
  have hYnd : ((((sortedRecords s).dropWhile
      (fun r => decide (r.notifiedTime < cutoffTime s now))).take
        (remainingAfter s now - 40 - (horizonKeys s now).length)).map
        (fun r => r.key)).Nodup := by
    refine (nodup_sorted_keys hnd).sublist (List.Sublist.map _ ?_)
    rw [htw.2]
    exact (List.take_sublist _ _).trans (List.filter_sublist _)
  have hsubY : ∀ k ∈ (((sortedRecords s).dropWhile
      (fun r => decide (r.notifiedTime < cutoffTime s now))).take
        (remainingAfter s now - 40 - (horizonKeys s now).length)).map
        (fun r => r.key),
      k ∈ (notifEntries (cleanupPasses13 s now)).map Prod.fst := by
    intro k hk
    rcases List.mem_map.mp hk with ⟨r, hrY, hkey⟩
    have hrB := List.mem_of_mem_take hrY
    rw [htw.2] at hrB
    have hr1 := List.mem_filter.mp hrB
    have hyoung : ¬ r.notifiedTime < cutoffTime s now := by
      have h2 := hr1.2
      rw [Bool.not_eq_eq_eq_not, Bool.not_true] at h2
      exact of_decide_eq_false h2
    have hrvalid := List.mem_filter.mp (hperm.mem_iff.mp hr1.1)
    have hnotc : k ∉ corruptedKeys s := by
      intro hk1
      rcases mem_corruptedKeys_rec.mp hk1 with ⟨r1, hr1c, hr1n, hr1k⟩
      have hreq : r1 = r := collect_key_inj hnd hr1c hrvalid.1 (hr1k.trans hkey.symm)
      have h2 := hrvalid.2
      rw [hreq, Option.isNone_iff_eq_none] at hr1n
      rw [hr1n] at h2
      simp at h2
    have hnoth : k ∉ horizonKeys s now := by
      intro hk2
      rcases mem_horizonKeys_rec.mp hk2 with ⟨r2, hr2c, -, hr2old, hr2k⟩
      have hreq : r2 = r := collect_key_inj hnd hr2c hrvalid.1 (hr2k.trans hkey.symm)
      rw [hreq] at hr2old
      exact hyoung hr2old
    rw [cleanupPasses13]
    apply mem_notifKeys_deleteProps hnoth
    apply mem_notifKeys_deleteProps hnotc
    rw [← hkey]
    exact key_mem_notifKeys hrvalid.1
  have hYlen : ((((sortedRecords s).dropWhile
      (fun r => decide (r.notifiedTime < cutoffTime s now))).take
        (remainingAfter s now - 40 - (horizonKeys s now).length)).map
        (fun r => r.key)).length =
      remainingAfter s now - 40 - (horizonKeys s now).length := by
    rw [List.length_map, List.length_take]
    omega
  rw [hclean, hnop, countNotified_deleteProps hnd2 hYnd hsubY, hYlen, hcount2]
  omega

/-- A store of 50 parseable notification records, two of them older than
the 4-hour horizon in force at this load. -/
def c3Store : Store :=
  (List.range 50).map (fun i =>
    (notifiedPfx ++ toString i,
     StoredValue.json ⟨toString i, 0, if i < 2 then 0 else 99000000⟩))

/-- C3 (counterexample): with 50 records of which exactly 2 are older
than the 4-hour horizon, the passes leave `remaining = 48 >= 48`, the
emergency pass triggers with `toRemove = 8`, but its two oldest targets
were already deleted by the horizon pass, so 42 records remain — not at
most 40 as the claim states. -/
theorem c3_counterexample :
    48 ≤ remainingAfter c3Store 100000000 ∧
    countNotified (cleanupOldNotificationRecords c3Store 100000000) = 42 ∧
    ¬ countNotified (cleanupOldNotificationRecords c3Store 100000000) ≤ 40 :=
  ⟨by decide, by decide, by decide⟩

/-- C3 (witness): the amended theorem applied to the concrete store —
`d = 2` horizon deletions leave `40 + 2` records. -/
theorem c3_witness :
    ((c3Store.map Prod.fst).Nodup ∧
     48 ≤ remainingAfter c3Store 100000000 ∧
     (horizonKeys c3Store 100000000).length ≤ remainingAfter c3Store 100000000 - 40) ∧
    countNotified (cleanupOldNotificationRecords c3Store 100000000) =
      40 + (horizonKeys c3Store 100000000).length :=
  ⟨⟨by decide, by decide, by decide⟩,
   c3_emergency_pass c3Store 100000000 (by decide) (by decide) (by decide)⟩
